import Mathlib

/-!
# ODF-data: Record Normalization & Reconciliation Engine — verification

Shallow embedding of the core logic of the ODF distribution-frame manager:

* the browser-side schema normalizer and custom-field resolver
  (`AppState.normalizeLoadedPorts`, `AppState.normalizeCustomFields`,
  `AppState.deriveExtraFieldDefs`, `AppState.swapPortData` in the unnamed
  client script), and
* the server-side roster reconciliation and keyword search
  (`POST /api/subregions`, `ensureOdfEntryExists`, `createDefaultPorts`,
  `searchData` in `server.js`).

JavaScript values flowing through the normalizer are modelled by the
inductive `JVal` (JSON-ish values; numbers are modelled as integers, which
every claim exercises them at).  JavaScript string primitives that the code
relies on (`trim`, `toLowerCase`, number stringification, `padStart`,
`Array.prototype.slice`) are modelled explicitly below.
-/

/-- A JavaScript/JSON value as it appears in stored entries and ports.
`none : Option JVal` stands for an absent property (`undefined`). -/
inductive JVal where
  | jnull : JVal
  | jbool (b : Bool) : JVal
  | jnum (n : Int) : JVal
  | jstr (s : String) : JVal
  | jarr (xs : List JVal) : JVal
  | jobj (kvs : List (String × JVal)) : JVal

mutual
/-- Structural equality test on `JVal` (the derive handler cannot treat the
nested inductive, so it is spelled out). -/
def JVal.beq : JVal → JVal → Bool
  | .jnull, .jnull => true
  | .jbool a, .jbool b => a = b
  | .jnum a, .jnum b => a = b
  | .jstr a, .jstr b => a = b
  | .jarr a, .jarr b => JVal.beqList a b
  | .jobj a, .jobj b => JVal.beqPairs a b
  | _, _ => false

/-- Pointwise `JVal.beq` on lists. -/
def JVal.beqList : List JVal → List JVal → Bool
  | [], [] => true
  | x :: xs, y :: ys => JVal.beq x y && JVal.beqList xs ys
  | _, _ => false

/-- Pointwise `JVal.beq` on key-value lists. -/
def JVal.beqPairs : List (String × JVal) → List (String × JVal) → Bool
  | [], [] => true
  | (k1, v1) :: xs, (k2, v2) :: ys => k1 = k2 && JVal.beq v1 v2 && JVal.beqPairs xs ys
  | _, _ => false
end

mutual
theorem JVal.beq_iff : ∀ a b : JVal, JVal.beq a b = true ↔ a = b
  | .jnull, .jnull => by simp [JVal.beq]
  | .jbool a, .jbool b => by simp [JVal.beq]
  | .jnum a, .jnum b => by simp [JVal.beq]
  | .jstr a, .jstr b => by simp [JVal.beq]
  | .jarr a, .jarr b => by
      simp only [JVal.beq, JVal.beqList_iff a b]
      constructor
      · intro h; rw [h]
      · intro h; cases h; rfl
  | .jobj a, .jobj b => by
      simp only [JVal.beq, JVal.beqPairs_iff a b]
      constructor
      · intro h; rw [h]
      · intro h; cases h; rfl
  | .jnull, .jbool _ => by simp [JVal.beq]
  | .jnull, .jnum _ => by simp [JVal.beq]
  | .jnull, .jstr _ => by simp [JVal.beq]
  | .jnull, .jarr _ => by simp [JVal.beq]
  | .jnull, .jobj _ => by simp [JVal.beq]
  | .jbool _, .jnull => by simp [JVal.beq]
  | .jbool _, .jnum _ => by simp [JVal.beq]
  | .jbool _, .jstr _ => by simp [JVal.beq]
  | .jbool _, .jarr _ => by simp [JVal.beq]
  | .jbool _, .jobj _ => by simp [JVal.beq]
  | .jnum _, .jnull => by simp [JVal.beq]
  | .jnum _, .jbool _ => by simp [JVal.beq]
  | .jnum _, .jstr _ => by simp [JVal.beq]
  | .jnum _, .jarr _ => by simp [JVal.beq]
  | .jnum _, .jobj _ => by simp [JVal.beq]
  | .jstr _, .jnull => by simp [JVal.beq]
  | .jstr _, .jbool _ => by simp [JVal.beq]
  | .jstr _, .jnum _ => by simp [JVal.beq]
  | .jstr _, .jarr _ => by simp [JVal.beq]
  | .jstr _, .jobj _ => by simp [JVal.beq]
  | .jarr _, .jnull => by simp [JVal.beq]
  | .jarr _, .jbool _ => by simp [JVal.beq]
  | .jarr _, .jnum _ => by simp [JVal.beq]
  | .jarr _, .jstr _ => by simp [JVal.beq]
  | .jarr _, .jobj _ => by simp [JVal.beq]
  | .jobj _, .jnull => by simp [JVal.beq]
  | .jobj _, .jbool _ => by simp [JVal.beq]
  | .jobj _, .jnum _ => by simp [JVal.beq]
  | .jobj _, .jstr _ => by simp [JVal.beq]
  | .jobj _, .jarr _ => by simp [JVal.beq]

theorem JVal.beqList_iff : ∀ a b : List JVal, JVal.beqList a b = true ↔ a = b
  | [], [] => by simp [JVal.beqList]
  | [], _ :: _ => by simp [JVal.beqList]
  | _ :: _, [] => by simp [JVal.beqList]
  | x :: xs, y :: ys => by
      simp [JVal.beqList, JVal.beq_iff x y, JVal.beqList_iff xs ys]

theorem JVal.beqPairs_iff : ∀ a b : List (String × JVal), JVal.beqPairs a b = true ↔ a = b
  | [], [] => by simp [JVal.beqPairs]
  | [], _ :: _ => by simp [JVal.beqPairs]
  | _ :: _, [] => by simp [JVal.beqPairs]
  | (k1, v1) :: xs, (k2, v2) :: ys => by
      simp [JVal.beqPairs, JVal.beq_iff v1 v2, JVal.beqPairs_iff xs ys, Prod.ext_iff,
        and_assoc]
end

instance : DecidableEq JVal := fun a b => decidable_of_iff _ (JVal.beq_iff a b)

/-- JavaScript truthiness (`Boolean(v)`). -/
def jsTruthy : JVal → Bool
  | .jnull => false
  | .jbool b => b
  | .jnum n => n ≠ 0
  | .jstr s => s ≠ ""
  | .jarr _ => true
  | .jobj _ => true

/-- Whitespace as stripped by `String.prototype.trim`. -/
def jsIsWS (c : Char) : Bool :=
  c = ' ' || c = '\t' || c = '\n' || c = '\r' || c = '\x0b' || c = '\x0c'

/-- `String.prototype.trim`. -/
def jsTrim (s : String) : String :=
  String.mk (((s.data.dropWhile jsIsWS).reverse.dropWhile jsIsWS).reverse)

/-- ASCII lower-casing of one character, as `toLowerCase` acts on ASCII. -/
def jsCharLower (c : Char) : Char :=
  if 'A' ≤ c ∧ c ≤ 'Z' then Char.ofNat (c.toNat + 32) else c

/-- `String.prototype.toLowerCase` (ASCII fragment). -/
def jsToLower (s : String) : String :=
  String.mk (s.data.map jsCharLower)

/-- Decimal digit character for `d < 10`. -/
def decDigit (d : Nat) : Char := Char.ofNat (48 + d)

/-- Decimal digit expansion of a natural number (fuel-driven). -/
def natDigitsAux : Nat → Nat → List Char
  | 0, _ => []
  | fuel+1, n => if n < 10 then [decDigit n] else natDigitsAux fuel (n / 10) ++ [decDigit (n % 10)]

/-- Decimal rendering of a natural number, as JS `Number#toString`. -/
def natToStr (n : Nat) : String := String.mk (natDigitsAux (n + 1) n)

/-- Decimal rendering of an integer, as JS `Number#toString`. -/
def intToStr (n : Int) : String :=
  if n < 0 then "-" ++ natToStr (-n).toNat else natToStr n.toNat

mutual
/-- JS `String(v)` coercion. An object renders as `"[object Object]"`,
an array joins its elements with commas (null/undefined elements render empty). -/
def jsToString : JVal → String
  | .jnull => "null"
  | .jbool b => if b then "true" else "false"
  | .jnum n => intToStr n
  | .jstr s => s
  | .jarr xs => jsJoinElems xs
  | .jobj _ => "[object Object]"

/-- `Array.prototype.join(",")` as used by `String(array)`. -/
def jsJoinElems : List JVal → String
  | [] => ""
  | [x] => jsElemStr x
  | x :: rest => jsElemStr x ++ "," ++ jsJoinElems rest

/-- One array element under `join`: null renders as the empty string. -/
def jsElemStr : JVal → String
  | .jnull => ""
  | v => jsToString v
end

/-- JS `Number(v)` coercion restricted to the shapes the claims exercise:
`some n` is a finite number, `none` is `NaN` (composite values are treated
as `NaN`; no claim feeds an array or object where a count is expected). -/
def jsToNumber : JVal → Option Int
  | .jnull => some 0
  | .jbool b => some (if b then 1 else 0)
  | .jnum n => some n
  | .jstr s => let t := jsTrim s; if t = "" then some 0 else t.toInt?
  | .jarr _ => none
  | .jobj _ => none

/-- `Array.prototype.slice(0, n)` (a negative bound counts from the end). -/
def jsSliceTo (l : List α) (n : Int) : List α :=
  if 0 ≤ n then l.take n.toNat else l.take (l.length - (-n).toNat)

/-- `String.prototype.padStart(3, "0")`. -/
def padStart3 (s : String) : String :=
  if 3 ≤ s.length then s else String.mk (List.replicate (3 - s.length) '0') ++ s

/-- Case-sensitive substring containment on strings (JS `String#includes`);
used only to state that a keyword does not occur literally in a result
preview.  The SQL queries themselves are modeled by `likeMatch`. -/
def strContains (hay needle : String) : Bool :=
  (List.range (hay.data.length + 1)).any (fun i => needle.data.isPrefixOf (hay.data.drop i))

/-- SQL `LIKE` pattern matching (MySQL, default escape `\`), fuel-driven:
`%` matches any sequence, `_` matches exactly one character, and `\c`
matches the character `c` literally for every `c` (so a keyword ending in
`\` escapes the closing `%` of a `'%kw%'` pattern); a pattern consisting
of a trailing lone `\` matches a lone backslash.  The fuel only needs to
exceed `|pattern| + |string|`, which every step decreases. -/
def likeMatchAux : Nat → List Char → List Char → Bool
  | 0, _, _ => false
  | fuel + 1, ps, s =>
    match ps, s with
    | [], s2 => s2.isEmpty
    | '%' :: ps2, s2 =>
      likeMatchAux fuel ps2 s2 ||
        (match s2 with
          | [] => false
          | _ :: s3 => likeMatchAux fuel ('%' :: ps2) s3)
    | '_' :: ps2, s2 =>
      (match s2 with
        | [] => false
        | _ :: s3 => likeMatchAux fuel ps2 s3)
    | '\\' :: c :: ps2, s2 =>
      (match s2 with
        | [] => false
        | c2 :: s3 => c2 = c && likeMatchAux fuel ps2 s3)
    | ['\\'], s2 => s2 = ['\\']
    | c :: ps2, s2 =>
      (match s2 with
        | [] => false
        | c2 :: s3 => c2 = c && likeMatchAux fuel ps2 s3)

/-- `pattern LIKE string` with enough fuel to be total. -/
def likeMatch (ps s : List Char) : Bool :=
  likeMatchAux (ps.length + s.length + 1) ps s

/-- The parameter bound to every `LIKE ?` placeholder:
`` `%${trimmedKeyword.toLowerCase()}%` `` — the keyword is interpolated
raw, so `%`, `_` and `\` inside it stay live wildcards. -/
def likePat (kw : String) : List Char :=
  '%' :: (kw.data ++ ['%'])

/-- `Object.prototype.hasOwnProperty` on an insertion-ordered object. -/
def objHas (m : List (String × JVal)) (k : String) : Bool := m.any (·.1 = k)

/-- Property read `m[k]` (only consulted under an `objHas` guard). -/
def objGet (m : List (String × JVal)) (k : String) : JVal :=
  match m.find? (·.1 = k) with
  | some p => p.2
  | none => .jnull

/-- Property write `m[k] = v` with JS object key semantics: an existing key
keeps its insertion position, a new key is appended. -/
def objSet (m : List (String × JVal)) (k : String) (v : JVal) : List (String × JVal) :=
  if m.any (·.1 = k) then m.map (fun p => if p.1 = k then (k, v) else p) else m ++ [(k, v)]

/-! ## Client-side schema normalizer (`AppState` in the unnamed browser script) -/

namespace AppState

/-- A raw port object as loaded from storage or an import: every property is
optional (`none` = the key is absent).  `extraProps` carries any further
keys, which the normalizer passes through untouched via object spread. -/
structure RawPort where
  extraFieldValues : Option JVal := none
  extraFields : Option JVal := none
  customFields : Option JVal := none
  id : Option JVal := none
  label : Option JVal := none
  status : Option JVal := none
  fiberType : Option JVal := none
  connectorType : Option JVal := none
  destination : Option JVal := none
  otdrDistance : Option JVal := none
  otdrDistanceValue : Option JVal := none
  lastMaintained : Option JVal := none
  branchingJoint : Option JVal := none
  cxLocation : Option JVal := none
  notes : Option JVal := none
  extraProps : List (String × JVal) := []
  deriving DecidableEq

/-- `String(label || '')` applied to a field-definition entry.  For a
string label this is the label itself (an empty string is falsy and
`String('')` is again the empty string); other shapes go through the
truthiness check and `String(v)`. -/
def labelText (label : JVal) : String :=
  match label with
  | .jstr s => s
  | _ => if jsTruthy label then jsToString label else ""

/-- The third branch of the resolver chain: the legacy `extraFields`
record sequence; a record contributes its `value` property when it is an
object carrying one, else the empty string. -/
def cfValueRecords (lo : Option (List JVal)) (idx : Nat) : JVal :=
  match lo with
  | some ys =>
    if idx < ys.length then
      match ys.getD idx .jnull with
      | .jobj r => if objHas r "value" then objGet r "value" else .jstr ""
      | _ => .jstr ""
    else .jstr ""
  | none => .jstr ""

/-- The second branch of the resolver chain: the legacy `extraFieldValues`
flat sequence at the label's positional index, else fall through to the
record sequence. -/
def cfValueFlat (la lo : Option (List JVal)) (idx : Nat) : JVal :=
  match la with
  | some xs => if idx < xs.length then xs.getD idx .jnull else cfValueRecords lo idx
  | none => cfValueRecords lo idx

/-- The resolver chain of `normalizeCustomFields` for one label: existing
map value under the exact key, else the legacy fallbacks. -/
def cfValue (em : Option (List (String × JVal))) (la lo : Option (List JVal))
    (key : String) (idx : Nat) : JVal :=
  match em with
  | some m => if objHas m key then objGet m key else cfValueFlat la lo idx
  | none => cfValueFlat la lo idx

/-- The loop body of `normalizeCustomFields`: walk `defs` with its index,
skipping labels that trim to empty, writing each resolved value under the
trimmed key. -/
def cfLoop (em : Option (List (String × JVal))) (la lo : Option (List JVal)) :
    List JVal → Nat → List (String × JVal) → List (String × JVal)
  | [], _, acc => acc
  | label :: rest, idx, acc =>
    let key := jsTrim (labelText label)
    if key = "" then cfLoop em la lo rest (idx + 1) acc
    else cfLoop em la lo rest (idx + 1) (objSet acc key (cfValue em la lo key idx))

/-- `AppState.normalizeCustomFields(port, defs)`: reconcile a port's custom
fields against the ordered definition list, across the three encodings
(`customFields` map, `extraFieldValues` flat array, `extraFields` records). -/
def normalizeCustomFields (port : RawPort) (defs : List JVal) : List (String × JVal) :=
  let legacyArray := match port.extraFieldValues with | some (.jarr xs) => some xs | _ => none
  let legacyObjects := match port.extraFields with | some (.jarr ys) => some ys | _ => none
  let existingMap := match port.customFields with | some (.jobj m) => some m | _ => none
  cfLoop existingMap legacyArray legacyObjects defs 0 []

/-- `cleanText` on a string: a string trimming/lower-casing to `"null"`
is cleared. -/
def cleanTextS (s : String) : String :=
  if jsToLower (jsTrim s) = "null" then "" else s

/-- The `cleanText` closure of `normalizeLoadedPorts`: null/absent values
become empty, `"null"`-looking strings are cleared, anything else is
stringified. -/
def cleanTextJ : Option JVal → String
  | none => ""
  | some .jnull => ""
  | some (.jstr s) => cleanTextS s
  | some v => jsToString v

/-- `^\d{4}-\d{2}-\d{2}` tested against the head of the string. -/
def dateShaped (s : String) : Bool :=
  match s.data with
  | a :: b :: c :: d :: '-' :: e :: f :: '-' :: g :: h :: _ =>
    a.isDigit && b.isDigit && c.isDigit && d.isDigit && e.isDigit && f.isDigit &&
      g.isDigit && h.isDigit
  | _ => false

/-- The `cleanDate` closure of `normalizeLoadedPorts`, parameterised by the
environment's date parser `dp`: `dp t = some d` models a successful
`new Date(t)` whose `toISOString().split('T')[0]` is `d`, `none` models an
invalid date. -/
def cleanDateJ (dp : String → Option String) (v : Option JVal) : String :=
  let text := cleanTextJ v
  if text = "" then ""
  else if dateShaped text then String.mk (text.data.take 10)
  else match dp text with
    | some d => d
    | none => text

/-- One port rewritten by `normalizeLoadedPorts`: drop the legacy
containers, regenerate `id` and `label` from the position, clean the scalar
fields, and resolve `customFields`. -/
def normalizePort (dp : String → Option String) (defs : List JVal) (index : Nat)
    (port : RawPort) : RawPort :=
  let customFields := normalizeCustomFields port defs
  { extraFieldValues := none
    extraFields := none
    customFields := some (.jobj customFields)
    id := some (.jnum (Int.ofNat (index + 1)))
    label := some (.jstr ("PORT-" ++ padStart3 (intToStr (Int.ofNat (index + 1)))))
    status := port.status
    fiberType := some (.jstr (cleanTextJ port.fiberType))
    connectorType := some (.jstr (cleanTextJ port.connectorType))
    destination := some (.jstr (cleanTextJ port.destination))
    otdrDistance := some (.jstr (cleanTextJ port.otdrDistance))
    otdrDistanceValue := some (.jstr (cleanTextJ port.otdrDistanceValue))
    lastMaintained := some (.jstr (cleanDateJ dp port.lastMaintained))
    branchingJoint := some (.jstr (cleanTextJ port.branchingJoint))
    cxLocation := some (.jstr (cleanTextJ port.cxLocation))
    notes := some (.jstr (cleanTextJ port.notes))
    extraProps := port.extraProps }

/-- `AppState.normalizeLoadedPorts(ports, displayCount, extraFieldDefs)`.
A finite numeric `displayCount` slices the port list to that many entries
(`ports.slice(0, parsedCount)`); a non-numeric one keeps the list as is.
Returns the rewritten ports together with the resulting `displayCount`,
which is always the length of the returned list. -/
def normalizeLoadedPorts (dp : String → Option String) (ports : List RawPort)
    (displayCount : JVal) (extraFieldDefs : List JVal) : List RawPort × Nat :=
  let sliced := match jsToNumber displayCount with
    | none => ports
    | some n => jsSliceTo ports n
  let out := sliced.mapIdx (fun i port => normalizePort dp extraFieldDefs i port)
  (out, out.length)

/-- `AppState.deriveExtraFieldDefs(ports)` — the body is literally
`return [];`. -/
def deriveExtraFieldDefs (_ports : List RawPort) : List JVal := []

/-- A saved entry as consumed by `AppState.init`. -/
structure StoredEntry where
  ports : List RawPort
  displayCount : JVal
  extraFieldDefs : Option JVal
  deriving DecidableEq

/-- The definitions list `AppState.init` puts in force for a loaded entry:
the saved `extraFieldDefs` when it is an array (arrays are truthy, even
empty ones), otherwise the empty list. -/
def initDefs (saved : StoredEntry) : List JVal :=
  let defsFromSave := match saved.extraFieldDefs with
    | some (.jarr xs) => some xs
    | _ => none
  match defsFromSave with
  | some defs => defs
  | none => []

end AppState

/-! ## Client-side port data switch (`AppState.swapPortData`) -/

namespace AppState

/-- A port as `swapPortData` sees it: an `id`, a `label`, and the rest of
its own enumerable fields bundled as `data` (the code splits exactly along
this line with `const ·  { id, label, ...data } = port`). -/
structure SwapPort (α : Type) where
  id : Int
  label : String
  data : α
  deriving DecidableEq

/-- `AppState.swapPortData(targetPortId)` with `this.selectedPortId = sel`
and `this.ports = ports`; `none` stands for a null selection / non-finite
target.  Returns the reported success flag and the resulting port list. -/
def swapPortData (ports : List (SwapPort α)) (sel : Option Int) (target : Option Int) :
    Bool × List (SwapPort α) :=
  match sel with
  | none => (false, ports)
  | some c =>
    if c = 0 then (false, ports)
    else match target with
      | none => (false, ports)
      | some t =>
        if c = t then (false, ports)
        else match ports.findIdx? (fun p => p.id = c), ports.findIdx? (fun p => p.id = t) with
          | some i, some j =>
            match ports.get? i, ports.get? j with
            | some pc, some pt =>
              (true, (ports.set i { pc with data := pt.data }).set j { pt with data := pc.data })
            | _, _ => (false, ports)
          | _, _ => (false, ports)

end AppState

/-! ## Server-side model (`server.js`): store state, roster reconciliation,
keyword search -/

namespace Server

/-- A row of the `ports` table (joined back into its entry).  `id` is the
stored `port_number`. -/
structure SPort where
  id : Int
  label : String
  status : String
  fiberType : String
  connectorType : String
  destination : String
  otdrDistance : String
  otdrDistanceValue : String
  lastMaintained : String
  branchingJoint : String
  cxLocation : String
  notes : String
  customFields : List (String × String)
  deriving DecidableEq

/-- A row of `odf_entries` together with its ports. -/
structure Entry where
  region : String
  sub : String
  displayCount : Int
  extraFieldDefs : List String
  lastSave : String
  ports : List SPort
  deriving DecidableEq

/-- The visible database state: the `subregions` rows and the ODF entries. -/
structure DbState where
  subregions : List (String × String)
  entries : List Entry
  deriving DecidableEq

/-- JSON escaping of a string body (quote and backslash). -/
def jsonEscape (s : String) : String :=
  String.mk (s.data.foldr (fun c acc =>
    if c = '"' ∨ c = '\\' then '\\' :: c :: acc else c :: acc) [])

/-- `JSON.stringify` of a string. -/
def jsonOfString (s : String) : String := "\"" ++ jsonEscape s ++ "\""

/-- `JSON.stringify` of an array of strings (e.g. `extraFieldDefs`). -/
def jsonOfStringList (l : List String) : String :=
  "[" ++ String.intercalate "," (l.map jsonOfString) ++ "]"

/-- `JSON.stringify` of a flat string map (a port's `customFields` column). -/
def jsonOfStringMap (m : List (String × String)) : String :=
  "\x7b" ++ String.intercalate ","
    (m.map (fun p => jsonOfString p.1 ++ ":" ++ jsonOfString p.2)) ++ "\x7d"

/-- `createDefaultPorts(count)`: sequential ids, padded labels, INACTIVE
status, default fiber/connector text, everything else empty, today's date. -/
def createDefaultPorts (today : String) (count : Nat) : List SPort :=
  (List.range count).map (fun i =>
    { id := Int.ofNat (i + 1)
      label := "PORT-" ++ padStart3 (intToStr (Int.ofNat (i + 1)))
      status := "INACTIVE"
      fiberType := "Single-mode OS2"
      connectorType := "LC/UPC"
      destination := ""
      otdrDistance := ""
      otdrDistanceValue := ""
      lastMaintained := today
      branchingJoint := ""
      cxLocation := ""
      notes := ""
      customFields := [] })

/-- The default entry `ensureOdfEntryExists` inserts for a fresh
`(region, sub)`: `displayCount = 96`, empty `extraFieldDefs`, 96 default
ports. -/
def defaultEntry (today region sub : String) : Entry :=
  { region := region
    sub := sub
    displayCount := 96
    extraFieldDefs := []
    lastSave := today
    ports := createDefaultPorts today 96 }

/-- Does an entry row exist for `(region, sub)`? -/
def entryExists (st : DbState) (region sub : String) : Bool :=
  st.entries.any (fun e => e.region = region ∧ e.sub = sub)

/-- `ensureOdfEntryExists(connection, region, sub)`: look the key up and
insert a default entry when absent; reports whether a row was created. -/
def ensureOdfEntryExists (today : String) (st : DbState) (region sub : String) :
    DbState × Bool :=
  if entryExists st region sub then (st, false)
  else ({ st with entries := st.entries ++ [defaultEntry today region sub] }, true)

/-- The creation loop of the `POST /api/subregions` handler over the added
subs, threading the created-row count. -/
def ensureAll (today region : String) : List String → DbState → DbState × Nat
  | [], st => (st, 0)
  | sub :: rest, st =>
    let step := ensureOdfEntryExists today st region sub
    let next := ensureAll today region rest step.1
    (next.1, (if step.2 then 1 else 0) + next.2)

/-- First-occurrence de-duplication, as `[...new Set(items)]` (the set
remembers the values already seen and skips repeats). -/
def jsSetDedup (l : List String) : List String := jsSetDedupGo [] l where
  jsSetDedupGo : List String → List String → List String
  | _, [] => []
  | seen, x :: xs =>
    if x ∈ seen then jsSetDedupGo seen xs else x :: jsSetDedupGo (x :: seen) xs

/-- The normalised roster payload: items trimmed, empties dropped,
de-duplicated keeping first occurrences. -/
def normalizeItems (items : List String) : List String :=
  jsSetDedup ((items.map jsTrim).filter (fun s => s ≠ ""))

/-- `SELECT sub FROM subregions WHERE region = ?`. -/
def currentSubs (st : DbState) (region : String) : List String :=
  (st.subregions.filter (fun rs => rs.1 = region)).map (fun rs => rs.2)

/-- Roster replacement: `DELETE FROM subregions WHERE region = ?` followed
by inserting the normalised items. -/
def replaceRoster (st : DbState) (region : String) (items : List String) : DbState :=
  { st with subregions :=
      st.subregions.filter (fun rs => rs.1 ≠ region) ++ items.map (fun s => (region, s)) }

/-- Cascade deletion of the removed subs' entries:
`DELETE FROM odf_entries WHERE region = ? AND sub IN (...)`. -/
def deleteEntries (st : DbState) (region : String) (removed : List String) : DbState :=
  { st with entries :=
      st.entries.filter (fun e => ¬(e.region = region ∧ e.sub ∈ removed)) }

/-- `removedSubs`: current roster members missing from the normalised
payload. -/
def removedSubs (st : DbState) (region : String) (items : List String) : List String :=
  (currentSubs st region).filter (fun s => s ∉ normalizeItems items)

/-- `addedSubs`: normalised payload members missing from the current
roster. -/
def addedSubs (st : DbState) (region : String) (items : List String) : List String :=
  (normalizeItems items).filter (fun s => s ∉ currentSubs st region)

/-- The reconciliation body of `POST /api/subregions` (its effect when every
store operation succeeds): normalise the payload, diff against the current
roster, replace the roster, cascade-delete removed entries, create default
entries for added subs.  Returns the new state with the reported
`(added, removed, created)` counts. -/
def reconcile (st : DbState) (region : String) (items : List String) (today : String) :
    DbState × Nat × Nat × Nat :=
  let st1 := replaceRoster st region (normalizeItems items)
  let st2 := deleteEntries st1 region (removedSubs st region items)
  let fin := ensureAll today region (addedSubs st region items) st2
  (fin.1, (addedSubs st region items).length, (removedSubs st region items).length, fin.2)

end Server

namespace Server

/-! ### The transactional `POST /api/subregions` handler

Each `connection.execute`/`query` call is numbered in program order; the
oracle `failAt = some k` makes the `k`-th call throw (`none` = every call
succeeds).  On a throw the handler rolls the transaction back — the visible
state is the original one — and re-throws, so the route answers with an
error instead of a success payload. -/

/-- The creation loop under the transaction: per added sub one lookup and,
when creating, two inserts (entry row and port batch), any of which may
fail.  Returns `none` on a throw, otherwise the pending state, the created
count and the next call number. -/
def ensureAllTx (today region : String) (failAt : Option Nat) :
    List String → Nat → DbState → Option (DbState × Nat × Nat)
  | [], ctr, st => some (st, 0, ctr)
  | sub :: rest, ctr, st =>
    if failAt = some ctr then none
    else if entryExists st region sub then
      match ensureAllTx today region failAt rest (ctr + 1) st with
      | none => none
      | some (st2, c, ctr2) => some (st2, c, ctr2)
    else if failAt = some (ctr + 1) ∨ failAt = some (ctr + 2) then none
    else
      match ensureAllTx today region failAt rest (ctr + 3)
          { st with entries := st.entries ++ [defaultEntry today region sub] } with
      | none => none
      | some (st2, c, ctr2) => some (st2, 1 + c, ctr2)

/-- The transaction body: roster select, roster delete, roster insert (when
non-empty), cascade delete (when any sub was removed), creation loop, and
the final commit; `none` models a throw at the numbered call. -/
def reconcileTxInner (st : DbState) (region : String) (items : List String) (today : String)
    (failAt : Option Nat) : Option (DbState × Nat × Nat × Nat) :=
  let normalizedItems := normalizeItems items
  if failAt = some 0 then none
  else
    let removed := removedSubs st region items
    let added := addedSubs st region items
    if failAt = some 1 then none
    else
      let p1 : DbState := { st with subregions := st.subregions.filter (fun rs => rs.1 ≠ region) }
      let afterInsert : Option (Nat × DbState) :=
        if normalizedItems.isEmpty then some (2, p1)
        else if failAt = some 2 then none
        else some (3, { p1 with subregions :=
          p1.subregions ++ normalizedItems.map (fun s => (region, s)) })
      match afterInsert with
      | none => none
      | some (ctr2, p2) =>
        let afterDelete : Option (Nat × DbState) :=
          if removed.isEmpty then some (ctr2, p2)
          else if failAt = some ctr2 then none
          else some (ctr2 + 1, deleteEntries p2 region removed)
        match afterDelete with
        | none => none
        | some (ctr3, p3) =>
          match ensureAllTx today region failAt added ctr3 p3 with
          | none => none
          | some (p4, created, ctr4) =>
            if failAt = some ctr4 then none
            else some (p4, added.length, removed.length, created)

/-- The whole handler around the transaction: on success the pending state
is committed and the `(added, removed, created)` counts are reported; on a
throw the transaction is rolled back (the original state stays visible) and
the error propagates to the route's error response. -/
def reconcileTx (st : DbState) (region : String) (items : List String) (today : String)
    (failAt : Option Nat) : Except Unit (Nat × Nat × Nat) × DbState :=
  match reconcileTxInner st region items today failAt with
  | some (p, a, r, c) => (.ok (a, r, c), p)
  | none => (.error (), st)

/-! ### `searchData(keyword)` -/

/-- One result row of `searchData`. -/
structure SearchItem where
  region : String
  sub : String
  storageKey : String
  jsonPath : String
  matchedValue : String
  link : String
  exactLink : String
  portNumber : Option Int
  fieldPath : String
  keyword : String
  deriving DecidableEq

/-- Characters `encodeURIComponent` leaves unescaped. -/
def uriUnreserved (c : Char) : Bool :=
  c.isAlphanum || c = '-' || c = '_' || c = '.' || c = '!' || c = '~' || c = '*' ||
    c = '\'' || c = '(' || c = ')'

/-- Upper-case hexadecimal digit. -/
def hexDigitChar (n : Nat) : Char :=
  if n < 10 then Char.ofNat (48 + n) else Char.ofNat (55 + n)

/-- Percent-encoding of one UTF-8 byte. -/
def pctByte (b : UInt8) : List Char :=
  ['%', hexDigitChar (b.toNat / 16), hexDigitChar (b.toNat % 16)]

/-- `encodeURIComponent`. -/
def encodeURIComponent (s : String) : String :=
  String.mk (s.data.foldr (fun c acc =>
    if uriUnreserved c then c :: acc
    else ((String.singleton c).toUTF8.toList.map pctByte).foldr (· ++ ·) acc) [])

/-- `buildBaseLink(region, sub)`. -/
def buildBaseLink (region sub : String) : String :=
  "/odf.html?region=" ++ encodeURIComponent region ++ "&sub=" ++ encodeURIComponent sub

/-- The metadata `SearchMatch` pushed for a matching `odf_entries` row. -/
def mkMetaItem (kw : String) (e : Entry) : SearchItem :=
  let link := buildBaseLink e.region e.sub
  { region := e.region
    sub := e.sub
    storageKey := e.region ++ "||" ++ e.sub
    jsonPath := "odf[\"" ++ e.region ++ "||" ++ e.sub ++ "\"]"
    matchedValue := e.region ++ " " ++ e.sub
    link := link
    exactLink := link
    portNumber := none
    fieldPath := ""
    keyword := kw }

/-- The `SearchMatch` pushed for a matching `ports` row. -/
def mkPortItem (kw region sub : String) (p : SPort) : SearchItem :=
  let baseLink := buildBaseLink region sub
  let exactLink := baseLink ++ "&port=" ++ encodeURIComponent (intToStr p.id)
  { region := region
    sub := sub
    storageKey := region ++ "||" ++ sub
    jsonPath := "odf[\"" ++ region ++ "||" ++ sub ++ "\"].ports[" ++ intToStr (p.id - 1) ++ "]"
    matchedValue := jsTrim ("Port " ++ intToStr p.id ++ ": " ++ p.label ++ " | " ++
      p.status ++ " | " ++ p.destination)
    link := exactLink
    exactLink := exactLink
    portNumber := some p.id
    fieldPath := ""
    keyword := kw }

/-- The `WHERE` clause of the metadata query: the pattern
`'%' + kw + '%'` `LIKE`-matches the case-folded `region`, `sub` or
`extraFieldDefs` JSON (wildcards in the keyword are live). -/
def metaMatches (kw : String) (e : Entry) : Bool :=
  likeMatch (likePat kw) (jsToLower e.region).data ||
    likeMatch (likePat kw) (jsToLower e.sub).data ||
    likeMatch (likePat kw) (jsToLower (jsonOfStringList e.extraFieldDefs)).data

/-- The `WHERE` clause of the port query over its eleven searched columns,
in query order: each is case-folded and `LIKE`-matched against
`'%' + kw + '%'` (wildcards in the keyword are live). -/
def portRowMatches (kw : String) (p : SPort) : Bool :=
  likeMatch (likePat kw) (jsToLower p.label).data ||
    likeMatch (likePat kw) (jsToLower p.status).data ||
    likeMatch (likePat kw) (jsToLower p.destination).data ||
    likeMatch (likePat kw) (jsToLower p.notes).data ||
    likeMatch (likePat kw) (jsToLower p.fiberType).data ||
    likeMatch (likePat kw) (jsToLower p.connectorType).data ||
    likeMatch (likePat kw) (jsToLower p.otdrDistance).data ||
    likeMatch (likePat kw) (jsToLower p.otdrDistanceValue).data ||
    likeMatch (likePat kw) (jsToLower p.branchingJoint).data ||
    likeMatch (likePat kw) (jsToLower p.cxLocation).data ||
    likeMatch (likePat kw) (jsToLower (jsonOfStringMap p.customFields)).data

/-- The de-duplication key of `pushUnique`:
`region || sub || (portNumber || 0)`. -/
def itemKey (it : SearchItem) : String :=
  it.region ++ "||" ++ it.sub ++ "||" ++ intToStr (match it.portNumber with
    | none => 0
    | some n => n)

/-- The push loop over one query's rows: insert unseen keys in order, stop
as soon as the map holds `limit` results. -/
def pushLoop (limit : Nat) : List (String × SearchItem) → List SearchItem →
    List (String × SearchItem)
  | acc, [] => acc
  | acc, it :: rest =>
    let acc2 := if acc.any (fun p => p.1 = itemKey it) then acc
      else acc ++ [(itemKey it, it)]
    if limit ≤ acc2.length then acc2 else pushLoop limit acc2 rest

/-- All `ports` rows joined to their entry, in table order. -/
def allPortRows (st : DbState) : List (String × String × SPort) :=
  st.entries.flatMap (fun e => e.ports.map (fun p => (e.region, e.sub, p)))

/-- `searchData(keyword)`: metadata matches first (`LIMIT 100`), then port
matches (`LIMIT 100`), de-duplicated into an insertion-ordered map capped
at 100, finally sliced to 100 items.  Returns
`(trimmed keyword, total, items)`. -/
def searchData (st : DbState) (keyword : String) : String × Nat × List SearchItem :=
  let trimmedKeyword := jsTrim keyword
  let kw := jsToLower trimmedKeyword
  let limit := 100
  let odfResults := (st.entries.filter (fun e => metaMatches kw e)).take 100
  let m1 := pushLoop limit [] (odfResults.map (fun e => mkMetaItem trimmedKeyword e))
  let portResults := ((allPortRows st).filter (fun r => portRowMatches kw r.2.2)).take 100
  let m2 := pushLoop limit m1
    (portResults.map (fun r => mkPortItem trimmedKeyword r.1 r.2.1 r.2.2))
  let items := (m2.map (fun p => p.2)).take limit
  (trimmedKeyword, items.length, items)

end Server

/-! ## Basic facts about the embedded operations -/

theorem AppState.normalizeLoadedPorts_fst (dp : String → Option String)
    (ports : List AppState.RawPort) (displayCount : JVal) (defs : List JVal) :
    (AppState.normalizeLoadedPorts dp ports displayCount defs).1
      = (match jsToNumber displayCount with
          | none => ports
          | some n => jsSliceTo ports n).mapIdx
          (fun i port => AppState.normalizePort dp defs i port) := rfl

theorem AppState.normalizeLoadedPorts_snd (dp : String → Option String)
    (ports : List AppState.RawPort) (displayCount : JVal) (defs : List JVal) :
    (AppState.normalizeLoadedPorts dp ports displayCount defs).2
      = (AppState.normalizeLoadedPorts dp ports displayCount defs).1.length := rfl

/-- C9: in every normalized entry the `i`-th port's `id` is `i + 1` and its
`label` is `"PORT-"` followed by `i + 1` zero-padded to three digits — both
regenerated from the position, never taken from the input — and the
returned `displayCount` equals the length of the returned port list. -/
theorem C9_sequential_identity (dp : String → Option String)
    (ports : List AppState.RawPort) (displayCount : JVal) (defs : List JVal) (i : Nat)
    (hi : i < (AppState.normalizeLoadedPorts dp ports displayCount defs).1.length) :
    ((AppState.normalizeLoadedPorts dp ports displayCount defs).1.get ⟨i, hi⟩).id
        = some (.jnum (Int.ofNat (i + 1))) ∧
      ((AppState.normalizeLoadedPorts dp ports displayCount defs).1.get ⟨i, hi⟩).label
        = some (.jstr ("PORT-" ++ padStart3 (intToStr (Int.ofNat (i + 1))))) ∧
      (AppState.normalizeLoadedPorts dp ports displayCount defs).2
        = (AppState.normalizeLoadedPorts dp ports displayCount defs).1.length := by
  have hlen : i < (match jsToNumber displayCount with
      | none => ports
      | some n => jsSliceTo ports n).length := by
    have h0 := hi
    rw [AppState.normalizeLoadedPorts_fst] at h0
    simp only [List.length_mapIdx] at h0
    exact h0
  have hget : (AppState.normalizeLoadedPorts dp ports displayCount defs).1.get ⟨i, hi⟩
      = AppState.normalizePort dp defs i
        ((match jsToNumber displayCount with
          | none => ports
          | some n => jsSliceTo ports n).get ⟨i, hlen⟩) := by
    have h2 := List.get_mapIdx (match jsToNumber displayCount with
      | none => ports
      | some n => jsSliceTo ports n) (fun i port => AppState.normalizePort dp defs i port) i hlen
    exact h2
  refine ⟨?_, ?_, AppState.normalizeLoadedPorts_snd dp ports displayCount defs⟩
  · rw [hget]; rfl
  · rw [hget]; rfl

/-- Witness for C9 at a three-port entry whose first port carries a stale
`id` and `label`. -/
theorem C9_sequential_identity_witness :
    1 < (AppState.normalizeLoadedPorts (fun _ => none)
        [{ id := some (.jnum 99), label := some (.jstr "junk") }, {}, {}]
        (.jnum 3) []).1.length ∧
      ((AppState.normalizeLoadedPorts (fun _ => none)
        [{ id := some (.jnum 99), label := some (.jstr "junk") }, {}, {}]
        (.jnum 3) []).1.get ⟨1, by decide⟩).id = some (.jnum 2) :=
  ⟨by decide, (C9_sequential_identity (fun _ => none)
    [{ id := some (.jnum 99), label := some (.jstr "junk") }, {}, {}]
    (.jnum 3) [] 1 (by decide)).1⟩

/-- C1 fails on the code: a raw entry with 8 ports and a submitted
`displayCount = 5` normalizes to `displayCount = 5` with only 5 ports —
the submitted smaller count is applied by `ports.slice(0, parsedCount)`,
not ignored, so the count does shrink below the actual data. -/
theorem C1_cex :
    (AppState.normalizeLoadedPorts (fun _ => none) (List.replicate 8 {}) (.jnum 5) []).2 = 5 ∧
      (List.replicate 8 ({} : AppState.RawPort)).length = 8 ∧
      (AppState.normalizeLoadedPorts (fun _ => none) (List.replicate 8 {}) (.jnum 5) []).1.length
        = 5 ∧ (5 : Nat) ≠ 8 := by
  refine ⟨rfl, rfl, rfl, by decide⟩

/-- C1 amended: for a submitted numeric `displayCount = n` with
`0 ≤ n < ports.length`, `normalizeLoadedPorts` keeps only the first `n`
ports (normalized in position order) and returns `displayCount = n`. -/
theorem C1_truncation (dp : String → Option String) (ports : List AppState.RawPort)
    (defs : List JVal) (n : Nat) (hn : n < ports.length) :
    (AppState.normalizeLoadedPorts dp ports (.jnum (Int.ofNat n)) defs).2 = n ∧
      (AppState.normalizeLoadedPorts dp ports (.jnum (Int.ofNat n)) defs).1
        = (ports.take n).mapIdx (fun i port => AppState.normalizePort dp defs i port) := by
  have hslice : (match jsToNumber (.jnum (Int.ofNat n)) with
      | none => ports
      | some m => jsSliceTo ports m) = ports.take n := by
    simp [jsToNumber, jsSliceTo, Int.ofNat_nonneg]
  constructor
  · rw [AppState.normalizeLoadedPorts_snd, AppState.normalizeLoadedPorts_fst, hslice,
      List.length_mapIdx, List.length_take]
    omega
  · rw [AppState.normalizeLoadedPorts_fst, hslice]

/-- Witness for C1 amended at the 8-port/5-count instance. -/
theorem C1_truncation_witness :
    5 < (List.replicate 8 ({} : AppState.RawPort)).length ∧
      (AppState.normalizeLoadedPorts (fun _ => none) (List.replicate 8 {}) (.jnum 5) []).2 = 5 :=
  ⟨by decide, (C1_truncation (fun _ => none) (List.replicate 8 {}) [] 5 (by decide)).1⟩

/-- C2 fails on the code: `deriveExtraFieldDefs` ignores its argument and
returns `[]`, and a stored entry saved without an explicit definitions
array is loaded with the empty schema even when its first port exposes a
map-shaped custom-fields container with key `"A"`. -/
theorem C2_cex :
    AppState.deriveExtraFieldDefs [{ customFields := some (.jobj [("A", .jstr "x")]) }] = [] ∧
      AppState.initDefs
        { ports := [{ customFields := some (.jobj [("A", .jstr "x")]) }],
          displayCount := .jnum 1, extraFieldDefs := none } = [] ∧
      ([] : List JVal) ≠ [.jstr "A"] :=
  ⟨rfl, rfl, by decide⟩

/-- C2 amended: no port scanning happens — the derived schema is the empty
list for every port list, and loading an entry with no explicit
`extraFieldDefs` array puts the empty schema in force. -/
theorem C2_no_scan (ports : List AppState.RawPort) (saved : AppState.StoredEntry)
    (h : ∀ xs, saved.extraFieldDefs ≠ some (.jarr xs)) :
    AppState.deriveExtraFieldDefs ports = [] ∧ AppState.initDefs saved = [] := by
  refine ⟨rfl, ?_⟩
  unfold AppState.initDefs
  match hv : saved.extraFieldDefs with
  | none => rfl
  | some .jnull => rfl
  | some (.jbool _) => rfl
  | some (.jnum _) => rfl
  | some (.jstr _) => rfl
  | some (.jarr xs) => exact absurd hv (h xs)
  | some (.jobj _) => rfl

/-- Witness for C2 amended at a one-port entry carrying a map-shaped
container but no explicit definitions list. -/
theorem C2_no_scan_witness :
    AppState.deriveExtraFieldDefs [{ customFields := some (.jobj [("A", .jstr "x")]) }] = [] ∧
      AppState.initDefs
        { ports := [{ customFields := some (.jobj [("A", .jstr "x")]) }],
          displayCount := .jnum 1, extraFieldDefs := some .jnull } = [] :=
  C2_no_scan [{ customFields := some (.jobj [("A", .jstr "x")]) }]
    { ports := [{ customFields := some (.jobj [("A", .jstr "x")]) }],
          displayCount := .jnum 1, extraFieldDefs := some .jnull }
    (fun _ h => by cases h)


/-- `findIdx?` returns the first index satisfying the predicate. -/
theorem List.findIdx?_eq_some_of_first {α : Type} (p : α → Bool) (l : List α) (i : Nat)
    (hi : i < l.length) (hp : p (l.get ⟨i, hi⟩) = true)
    (hfirst : ∀ k (hk : k < l.length), k < i → p (l.get ⟨k, hk⟩) = false) :
    l.findIdx? p = some i := by
  induction l generalizing i with
  | nil => simp at hi
  | cons a as ih =>
    rw [List.findIdx?_cons]
    cases i with
    | zero =>
      simp only [List.get_eq_getElem, List.getElem_cons_zero] at hp
      simp [hp]
    | succ n =>
      have ha : p a = false := by
        have h0 := hfirst 0 (by simp) (by omega)
        simpa using h0
      have hn : as.findIdx? p = some n := by
        refine ih n (by simpa using hi) (by simpa using hp) ?_
        intro k hk hkn
        have hx := hfirst (k + 1) (by simpa using hk) (by omega)
        simpa using hx
      simp [ha, hn]

/-- The successful branch of `swapPortData`: with a truthy selected id `c`,
a finite target `t ≠ c`, and both ids present first at positions `i` and
`j`, the two ports exchange their `data` while `id` and `label` stay at
their original positions; every other port is untouched. -/
theorem AppState.swapPortData_eq {α : Type} (ports : List (AppState.SwapPort α)) (c t : Int)
    (i j : Nat) (hi : i < ports.length) (hj : j < ports.length)
    (hc0 : c ≠ 0) (hct : c ≠ t)
    (hci : (ports.get ⟨i, hi⟩).id = c)
    (hifirst : ∀ k (hk : k < ports.length), k < i → (ports.get ⟨k, hk⟩).id ≠ c)
    (htj : (ports.get ⟨j, hj⟩).id = t)
    (hjfirst : ∀ k (hk : k < ports.length), k < j → (ports.get ⟨k, hk⟩).id ≠ t) :
    AppState.swapPortData ports (some c) (some t)
      = (true, (ports.set i { ports.get ⟨i, hi⟩ with data := (ports.get ⟨j, hj⟩).data }).set j
          { ports.get ⟨j, hj⟩ with data := (ports.get ⟨i, hi⟩).data }) := by
  have hfi : ports.findIdx? (fun p => p.id = c) = some i := by
    refine List.findIdx?_eq_some_of_first _ ports i hi (by simpa using hci) ?_
    intro k hk hki
    simpa using hifirst k hk hki
  have hfj : ports.findIdx? (fun p => p.id = t) = some j := by
    refine List.findIdx?_eq_some_of_first _ ports j hj (by simpa using htj) ?_
    intro k hk hkj
    simpa using hjfirst k hk hkj
  have hgi : ports.get? i = some (ports.get ⟨i, hi⟩) := List.get?_eq_get hi
  have hgj : ports.get? j = some (ports.get ⟨j, hj⟩) := List.get?_eq_get hj
  simp only [AppState.swapPortData, if_neg hc0, if_neg hct, hfi, hfj, hgi, hgj]

/-- C10 fails on the code for a selected id of `0`: both ids are present
and distinct, yet `swapPortData` returns `false` and leaves the list
unchanged, because `!currentId` treats the falsy id `0` like a missing
selection. -/
theorem C10_cex :
    AppState.swapPortData (α := String)
        [{ id := 0, label := "L0", data := "a" }, { id := 1, label := "L1", data := "b" }]
        (some 0) (some 1)
      = (false, [{ id := 0, label := "L0", data := "a" }, { id := 1, label := "L1", data := "b" }]) ∧
      ([{ id := 0, label := "L0", data := "a" }, { id := 1, label := "L1", data := "b" }] :
        List (AppState.SwapPort String)).any (fun p => p.id = 0) = true ∧
      ([{ id := 0, label := "L0", data := "a" }, { id := 1, label := "L1", data := "b" }] :
        List (AppState.SwapPort String)).any (fun p => p.id = 1) = true ∧
      (0 : Int) ≠ 1 := by
  refine ⟨rfl, by decide, by decide, by decide⟩

/-- C10 amended: when the selected id `c` is present (first at position
`i`), non-zero — a selected id of `0` is falsy and rejected like a missing
one — and the finite target id `t ≠ c` is present (first at position `j`),
`swapPortData` returns `true` and exchanges exactly the `data` of the two
ports, leaving `id` and `label` at their original positions and every other
port unchanged; applying it twice with the same target restores the
original list.  With a null selection or non-finite target it returns
`false` and changes nothing. -/
theorem C10_swap {α : Type} (ports : List (AppState.SwapPort α)) (c t : Int)
    (i j : Nat) (hi : i < ports.length) (hj : j < ports.length)
    (hc0 : c ≠ 0) (hct : c ≠ t)
    (hci : (ports.get ⟨i, hi⟩).id = c)
    (hifirst : ∀ k (hk : k < ports.length), k < i → (ports.get ⟨k, hk⟩).id ≠ c)
    (htj : (ports.get ⟨j, hj⟩).id = t)
    (hjfirst : ∀ k (hk : k < ports.length), k < j → (ports.get ⟨k, hk⟩).id ≠ t) :
    AppState.swapPortData ports (some c) (some t)
        = (true, (ports.set i { ports.get ⟨i, hi⟩ with data := (ports.get ⟨j, hj⟩).data }).set j
            { ports.get ⟨j, hj⟩ with data := (ports.get ⟨i, hi⟩).data }) ∧
      AppState.swapPortData
          (AppState.swapPortData ports (some c) (some t)).2 (some c) (some t)
        = (true, ports) ∧
      (∀ u : Option Int, AppState.swapPortData ports none u = (false, ports)) ∧
      AppState.swapPortData ports (some c) none = (false, ports) ∧
      AppState.swapPortData ports (some c) (some c) = (false, ports) := by
  have hij : i ≠ j := by
    intro h
    apply hct
    have hgg : ports.get ⟨i, hi⟩ = ports.get ⟨j, hj⟩ := by subst h; rfl
    rw [← hci, ← htj, hgg]
  have h1 := AppState.swapPortData_eq ports c t i j hi hj hc0 hct hci hifirst htj hjfirst
  refine ⟨h1, ?_, fun u => rfl, ?_, ?_⟩
  · rw [h1]
    have hlen : ((ports.set i { ports.get ⟨i, hi⟩ with data := (ports.get ⟨j, hj⟩).data }).set j
        { ports.get ⟨j, hj⟩ with data := (ports.get ⟨i, hi⟩).data }).length = ports.length := by
      simp
    have hgets : ∀ k (hk : k < ports.length),
        ((ports.set i { ports.get ⟨i, hi⟩ with data := (ports.get ⟨j, hj⟩).data }).set j
            { ports.get ⟨j, hj⟩ with data := (ports.get ⟨i, hi⟩).data }).get
            ⟨k, by rw [hlen]; exact hk⟩
          = if k = j then { ports.get ⟨j, hj⟩ with data := (ports.get ⟨i, hi⟩).data }
            else if k = i then { ports.get ⟨i, hi⟩ with data := (ports.get ⟨j, hj⟩).data }
            else ports.get ⟨k, hk⟩ := by
      intro k hk
      simp only [List.get_eq_getElem]
      by_cases hkj : k = j
      · subst hkj
        simp [List.getElem_set_self]
      · rw [List.getElem_set_ne (by omega)]
        by_cases hki : k = i
        · subst hki
          simp [List.getElem_set_self, hkj]
        · rw [List.getElem_set_ne (by omega)]
          simp [hkj, hki]
    have hidk : ∀ k (hk : k < ports.length),
        (((ports.set i { ports.get ⟨i, hi⟩ with data := (ports.get ⟨j, hj⟩).data }).set j
            { ports.get ⟨j, hj⟩ with data := (ports.get ⟨i, hi⟩).data }).get
            ⟨k, by rw [hlen]; exact hk⟩).id
          = (ports.get ⟨k, hk⟩).id := by
      intro k hk
      rw [hgets k hk]
      by_cases hkj : k = j
      · subst hkj; simp
      · by_cases hki : k = i
        · subst hki; simp [hkj]
        · simp [hkj, hki]
    have h2 := AppState.swapPortData_eq
      ((ports.set i { ports.get ⟨i, hi⟩ with data := (ports.get ⟨j, hj⟩).data }).set j
        { ports.get ⟨j, hj⟩ with data := (ports.get ⟨i, hi⟩).data }) c t i j
      (by rw [hlen]; exact hi) (by rw [hlen]; exact hj) hc0 hct
      (by rw [hidk i hi]; exact hci)
      (fun k hk hki => by
        rw [hidk k (by rw [← hlen]; exact hk)]
        exact hifirst k (by rw [← hlen]; exact hk) hki)
      (by rw [hidk j hj]; exact htj)
      (fun k hk hkj => by
        rw [hidk k (by rw [← hlen]; exact hk)]
        exact hjfirst k (by rw [← hlen]; exact hk) hkj)
    rw [h2]
    rw [hgets i hi, hgets j hj]
    rw [if_neg hij, if_pos rfl, if_pos rfl]
    refine congrArg (Prod.mk true) ?_
    have hpc : ({ { ports.get ⟨i, hi⟩ with data := (ports.get ⟨j, hj⟩).data } with
        data := ({ ports.get ⟨j, hj⟩ with data := (ports.get ⟨i, hi⟩).data }
          : AppState.SwapPort α).data } : AppState.SwapPort α) = ports.get ⟨i, hi⟩ := rfl
    have hpt : ({ { ports.get ⟨j, hj⟩ with data := (ports.get ⟨i, hi⟩).data } with
        data := ({ ports.get ⟨i, hi⟩ with data := (ports.get ⟨j, hj⟩).data }
          : AppState.SwapPort α).data } : AppState.SwapPort α) = ports.get ⟨j, hj⟩ := rfl
    rw [hpc, hpt]
    apply List.ext_getElem
    · simp
    · intro k hk1 hk2
      by_cases hkj : k = j
      · subst hkj; simp
      · rw [List.getElem_set_ne (by omega)]
        by_cases hki : k = i
        · subst hki; simp
        · rw [List.getElem_set_ne (by omega), List.getElem_set_ne (by omega),
            List.getElem_set_ne (by omega)]
  · simp [AppState.swapPortData, hc0]
  · simp [AppState.swapPortData, hc0]

/-- Witness for C10 amended: swapping port 1 with port 2 in a two-port list
moves the data and keeps ids and labels. -/
theorem C10_swap_witness :
    AppState.swapPortData (α := String)
        [{ id := 1, label := "L1", data := "a" }, { id := 2, label := "L2", data := "b" }]
        (some 1) (some 2)
      = (true, [{ id := 1, label := "L1", data := "b" }, { id := 2, label := "L2", data := "a" }]) :=
  (C10_swap (α := String)
      [{ id := 1, label := "L1", data := "a" }, { id := 2, label := "L2", data := "b" }]
      1 2 0 1 (by decide) (by decide) (by decide) (by decide) (by decide)
      (fun k hk hki => by omega) (by decide)
      (fun k hk hkj => by
        have hk0 : k = 0 := by omega
        subst hk0
        exact (by decide : ¬(1 : Int) = 2))).1

/-! ## C3: the custom-field resolver against its specification -/

/-- The value the specification's fixed priority chain assigns to a label
(spec-side definition, written from the claim's words): the map-shaped
container's value under that exact label if present, else the legacy flat
value sequence at the label's positional index if present, else the `value`
field of the legacy record sequence at that position if present, else the
empty string. -/
def specFieldValue (port : AppState.RawPort) (key : String) (idx : Nat) : JVal :=
  match port.customFields with
  | some (.jobj m) =>
    if objHas m key then objGet m key else specFieldValueFlat port key idx
  | _ => specFieldValueFlat port key idx
where
  specFieldValueFlat (port : AppState.RawPort) (_key : String) (idx : Nat) : JVal :=
    match port.extraFieldValues with
    | some (.jarr xs) =>
      if idx < xs.length then xs.getD idx .jnull else specFieldValueRecords port idx
    | _ => specFieldValueRecords port idx
  specFieldValueRecords (port : AppState.RawPort) (idx : Nat) : JVal :=
    match port.extraFields with
    | some (.jarr ys) =>
      if idx < ys.length then
        match ys.getD idx .jnull with
        | .jobj r => if objHas r "value" then objGet r "value" else .jstr ""
        | _ => .jstr ""
      else .jstr ""
    | _ => .jstr ""

/-- The mapping the claim describes: keys are exactly the trimmed non-empty
labels, in list order, each resolved by `specFieldValue` at the label's
positional index (spec-side definition). -/
def specCustomFields (port : AppState.RawPort) (defs : List JVal) : List (String × JVal) :=
  (List.enum defs).filterMap (fun p =>
    let key := jsTrim (AppState.labelText p.2)
    if key = "" then none else some (key, specFieldValue port key p.1))

/-- The trimmed non-empty labels of a definitions list. -/
def keyList (defs : List JVal) : List String :=
  (defs.map (fun l => jsTrim (AppState.labelText l))).filter (fun k => k ≠ "")

theorem AppState.cfLoop_append (em : Option (List (String × JVal)))
    (la lo : Option (List JVal)) :
    ∀ (defs : List JVal) (idx : Nat) (acc : List (String × JVal)),
      (keyList defs).Nodup →
      (∀ k, k ∈ acc.map Prod.fst → k ∉ keyList defs) →
      AppState.cfLoop em la lo defs idx acc
        = acc ++ (List.enumFrom idx defs).filterMap (fun p =>
            let key := jsTrim (AppState.labelText p.2)
            if key = "" then none
            else some (key, AppState.cfValue em la lo key p.1))
  | [], idx, acc, _, _ => by simp [AppState.cfLoop]
  | label :: rest, idx, acc, hnd, hdisj => by
    by_cases hkey : jsTrim (AppState.labelText label) = ""
    · have hkl : keyList (label :: rest) = keyList rest := by
        simp [keyList, hkey]
      rw [hkl] at hnd hdisj
      simp only [AppState.cfLoop, hkey, if_pos, List.enumFrom, List.filterMap_cons]
      exact AppState.cfLoop_append em la lo rest (idx + 1) acc hnd hdisj
    · have hkl : keyList (label :: rest)
          = jsTrim (AppState.labelText label) :: keyList rest := by
        simp [keyList, hkey]
      rw [hkl] at hnd hdisj
      have hnotacc : ¬acc.any (fun p => p.1 = jsTrim (AppState.labelText label)) := by
        intro hany
        rcases List.any_eq_true.mp hany with ⟨p, hp, hpk⟩
        have hmem : jsTrim (AppState.labelText label) ∈ acc.map Prod.fst := by
          refine List.mem_map.mpr ⟨p, hp, ?_⟩
          exact of_decide_eq_true hpk
        exact hdisj _ hmem (by simp)
      have hset : objSet acc (jsTrim (AppState.labelText label))
            (AppState.cfValue em la lo (jsTrim (AppState.labelText label)) idx)
          = acc ++ [(jsTrim (AppState.labelText label),
              AppState.cfValue em la lo (jsTrim (AppState.labelText label)) idx)] := by
        unfold objSet
        rw [if_neg hnotacc]
      simp only [AppState.cfLoop]
      rw [if_neg hkey, hset]
      have hrec := AppState.cfLoop_append em la lo rest (idx + 1)
        (acc ++ [(jsTrim (AppState.labelText label),
          AppState.cfValue em la lo (jsTrim (AppState.labelText label)) idx)])
        (List.Nodup.of_cons hnd) ?_
      · rw [hrec]
        simp only [List.enumFrom, List.filterMap_cons]
        rw [if_neg hkey]
        simp
      · intro k hk
        simp only [List.map_append, List.mem_append] at hk
        rcases hk with hk | hk
        · intro hmem
          exact hdisj k hk (List.mem_cons_of_mem _ hmem)
        · simp only [List.map_cons, List.map_nil, List.mem_singleton] at hk
          subst hk
          intro hmem
          rcases List.nodup_cons.mp hnd with ⟨hnin, _⟩
          exact hnin hmem

/-- The extracted containers of `normalizeCustomFields` resolve exactly as
the specification's chain. -/
theorem AppState.cfValue_eq_spec (port : AppState.RawPort) (key : String) (idx : Nat) :
    AppState.cfValue
        (match port.customFields with | some (.jobj m) => some m | _ => none)
        (match port.extraFieldValues with | some (.jarr xs) => some xs | _ => none)
        (match port.extraFields with | some (.jarr ys) => some ys | _ => none) key idx
      = specFieldValue port key idx := by
  have hrec : AppState.cfValueRecords
      (match port.extraFields with | some (.jarr ys) => some ys | _ => none) idx
      = specFieldValue.specFieldValueRecords port idx := by
    unfold AppState.cfValueRecords specFieldValue.specFieldValueRecords
    match port.extraFields with
    | none => rfl
    | some .jnull => rfl
    | some (.jbool _) => rfl
    | some (.jnum _) => rfl
    | some (.jstr _) => rfl
    | some (.jarr ys) => rfl
    | some (.jobj _) => rfl
  have hflat : AppState.cfValueFlat
      (match port.extraFieldValues with | some (.jarr xs) => some xs | _ => none)
      (match port.extraFields with | some (.jarr ys) => some ys | _ => none) idx
      = specFieldValue.specFieldValueFlat port key idx := by
    unfold AppState.cfValueFlat specFieldValue.specFieldValueFlat
    match port.extraFieldValues with
    | none => exact hrec
    | some .jnull => exact hrec
    | some (.jbool _) => exact hrec
    | some (.jnum _) => exact hrec
    | some (.jstr _) => exact hrec
    | some (.jarr xs) => simp [hrec]
    | some (.jobj _) => exact hrec
  unfold AppState.cfValue specFieldValue
  match port.customFields with
  | none => exact hflat
  | some .jnull => exact hflat
  | some (.jbool _) => exact hflat
  | some (.jnum _) => exact hflat
  | some (.jstr _) => exact hflat
  | some (.jarr _) => exact hflat
  | some (.jobj m) => simp [hflat]

/-- C3: for every port and every definitions list whose trimmed non-empty
labels are distinct, `normalizeCustomFields` returns exactly the mapping
the specification describes: one key per trimmed non-empty label, in list
order, resolved by the fixed priority map container / legacy flat sequence
/ legacy record sequence / empty string. -/
theorem C3_custom_fields (port : AppState.RawPort) (defs : List JVal)
    (h : (keyList defs).Nodup) :
    AppState.normalizeCustomFields port defs = specCustomFields port defs := by
  unfold AppState.normalizeCustomFields specCustomFields
  rw [AppState.cfLoop_append _ _ _ defs 0 [] h (by simp)]
  rw [List.nil_append]
  have henum : List.enum defs = List.enumFrom 0 defs := rfl
  rw [henum]
  congr 1
  funext p
  simp only [AppState.cfValue_eq_spec]

/-- Witness for C3 at Scenario A: a port with no map container and legacy
flat sequence `["10km"]` under definitions `["Distance"]` resolves to the
single-entry mapping `Distance ↦ 10km`. -/
theorem C3_custom_fields_witness :
    (keyList [.jstr "Distance"]).Nodup ∧
      AppState.normalizeCustomFields { extraFieldValues := some (.jarr [.jstr "10km"]) }
          [.jstr "Distance"]
        = specCustomFields { extraFieldValues := some (.jarr [.jstr "10km"]) }
          [.jstr "Distance"] ∧
      AppState.normalizeCustomFields { extraFieldValues := some (.jarr [.jstr "10km"]) }
          [.jstr "Distance"]
        = [("Distance", .jstr "10km")] :=
  ⟨by
    have hk : keyList [JVal.jstr "Distance"] = ["Distance"] := rfl
    rw [hk]
    exact List.nodup_singleton _,
    C3_custom_fields { extraFieldValues := some (.jarr [.jstr "10km"]) }
      [.jstr "Distance"] (by
        have hk : keyList [JVal.jstr "Distance"] = ["Distance"] := rfl
        rw [hk]
        exact List.nodup_singleton _),
    by rfl⟩

/-! ## C4/C7: roster reconciliation -/

namespace Server

theorem replaceRoster_entries (st : DbState) (region : String) (items : List String) :
    (replaceRoster st region items).entries = st.entries := rfl

theorem entryExists_iff (st : DbState) (region sub : String) :
    entryExists st region sub = true ↔ ∃ e ∈ st.entries, e.region = region ∧ e.sub = sub := by
  unfold entryExists
  rw [List.any_eq_true]
  constructor
  · rintro ⟨e, he, hp⟩
    exact ⟨e, he, of_decide_eq_true hp⟩
  · rintro ⟨e, he, hp⟩
    exact ⟨e, he, decide_eq_true hp⟩

theorem deleteEntries_not_exists (st : DbState) (region : String) (removed : List String)
    (sub : String) (h : sub ∈ removed) :
    entryExists (deleteEntries st region removed) region sub = false := by
  rw [Bool.eq_false_iff]
  intro hex
  rcases (entryExists_iff _ _ _).mp hex with ⟨e, he, hr, hs⟩
  unfold deleteEntries at he
  simp only [List.mem_filter] at he
  rcases he with ⟨_, hcond⟩
  rw [decide_eq_true_iff] at hcond
  exact hcond ⟨hr, hs ▸ h⟩

theorem deleteEntries_exists_of_not_removed (st : DbState) (region : String)
    (removed : List String) (r sub : String) (h : sub ∉ removed) :
    entryExists (deleteEntries st region removed) r sub = entryExists st r sub := by
  by_cases hex : entryExists st r sub = true
  · rcases (entryExists_iff _ _ _).mp hex with ⟨e, he, hr, hs⟩
    rw [hex]
    refine (entryExists_iff _ _ _).mpr ⟨e, ?_, hr, hs⟩
    unfold deleteEntries
    simp only [List.mem_filter]
    refine ⟨he, ?_⟩
    rw [decide_eq_true_iff]
    rintro ⟨_, hsub⟩
    exact h (hs ▸ hsub)
  · rw [Bool.not_eq_true] at hex
    rw [hex, Bool.eq_false_iff]
    intro hex2
    rcases (entryExists_iff _ _ _).mp hex2 with ⟨e, he, hr, hs⟩
    unfold deleteEntries at he
    simp only [List.mem_filter] at he
    rw [Bool.eq_false_iff] at hex
    exact hex ((entryExists_iff _ _ _).mpr ⟨e, he.1, hr, hs⟩)

theorem deleteEntries_mem (st : DbState) (region : String) (removed : List String)
    (e : Entry) (h : e ∈ (deleteEntries st region removed).entries) : e ∈ st.entries := by
  unfold deleteEntries at h
  exact List.mem_of_mem_filter h

theorem ensureAll_entries_mono (today region : String) (subs : List String) (st : DbState) :
    ∀ e ∈ st.entries, e ∈ (ensureAll today region subs st).1.entries := by
  induction subs generalizing st with
  | nil => intro e he; exact he
  | cons sub rest ih =>
    intro e he
    unfold ensureAll ensureOdfEntryExists
    by_cases hex : entryExists st region sub = true
    · simp only [hex, if_true]
      exact ih st e he
    · rw [Bool.not_eq_true] at hex
      simp only [hex, Bool.false_eq_true, if_false]
      exact ih _ e (List.mem_append_left _ he)

theorem ensureAll_exists_of_exists (today region : String) (subs : List String) (st : DbState)
    (r s : String) (h : entryExists st r s = true) :
    entryExists (ensureAll today region subs st).1 r s = true := by
  rcases (entryExists_iff _ _ _).mp h with ⟨e, he, hr, hs⟩
  exact (entryExists_iff _ _ _).mpr
    ⟨e, ensureAll_entries_mono today region subs st e he, hr, hs⟩

theorem ensureAll_exists_of_mem (today region : String) (subs : List String)
    (s : String) : ∀ st : DbState, s ∈ subs →
    entryExists (ensureAll today region subs st).1 region s = true := by
  induction subs with
  | nil => intro st h; cases h
  | cons sub rest ih =>
    intro st h
    unfold ensureAll ensureOdfEntryExists
    rcases List.mem_cons.mp h with hh | hh
    · subst hh
      by_cases hex : entryExists st region s = true
      · simp only [hex, if_true]
        exact ensureAll_exists_of_exists today region rest st region s hex
      · rw [Bool.not_eq_true] at hex
        simp only [hex, Bool.false_eq_true, if_false]
        refine ensureAll_exists_of_exists today region rest _ region s ?_
        refine (entryExists_iff _ _ _).mpr ⟨defaultEntry today region s, ?_, rfl, rfl⟩
        exact List.mem_append_right _ (List.mem_singleton_self _)
    · by_cases hex : entryExists st region sub = true
      · simp only [hex, if_true]
        exact ih st hh
      · rw [Bool.not_eq_true] at hex
        simp only [hex, Bool.false_eq_true, if_false]
        exact ih _ hh

theorem ensureAll_not_exists (today region : String) (subs : List String) (st : DbState)
    (r s : String) (h : entryExists st r s = false) (hside : r ≠ region ∨ s ∉ subs) :
    entryExists (ensureAll today region subs st).1 r s = false := by
  induction subs generalizing st with
  | nil => exact h
  | cons sub rest ih =>
    have hside2 : r ≠ region ∨ s ∉ rest := by
      rcases hside with hr | hs
      · exact Or.inl hr
      · exact Or.inr (fun hmem => hs (List.mem_cons_of_mem _ hmem))
    unfold ensureAll ensureOdfEntryExists
    by_cases hex : entryExists st region sub = true
    · simp only [hex, if_true]
      exact ih st h hside2
    · rw [Bool.not_eq_true] at hex
      simp only [hex, Bool.false_eq_true, if_false]
      refine ih _ ?_ hside2
      rw [Bool.eq_false_iff]
      intro hex2
      rcases (entryExists_iff _ _ _).mp hex2 with ⟨e, he, hr, hs⟩
      rcases List.mem_append.mp he with he | he
      · rw [Bool.eq_false_iff] at h
        exact h ((entryExists_iff _ _ _).mpr ⟨e, he, hr, hs⟩)
      · rw [List.mem_singleton] at he
        subst he
        rcases hside with hr2 | hs2
        · exact hr2 hr.symm
        · refine absurd ?_ hs2
          have hsub : sub = s := hs
          rw [← hsub]
          exact List.mem_cons_self _ _

theorem ensureAll_created_le (today region : String) (subs : List String) (st : DbState) :
    (ensureAll today region subs st).2 ≤ subs.length := by
  induction subs generalizing st with
  | nil => simp [ensureAll]
  | cons sub rest ih =>
    unfold ensureAll
    have hrec := ih (ensureOdfEntryExists today st region sub).1
    by_cases hb : (ensureOdfEntryExists today st region sub).2 = true
    · simp only [hb, if_true, List.length_cons]
      omega
    · rw [Bool.not_eq_true] at hb
      simp only [hb, Bool.false_eq_true, if_false, List.length_cons]
      omega

theorem ensureAll_new_entries (today region : String) (subs : List String) (st : DbState) :
    ∀ e ∈ (ensureAll today region subs st).1.entries,
      e ∈ st.entries ∨ ∃ s ∈ subs, e = defaultEntry today region s ∧
        entryExists st region s = false := by
  induction subs generalizing st with
  | nil => intro e he; exact Or.inl he
  | cons sub rest ih =>
    intro e he
    rw [show (ensureAll today region (sub :: rest) st).1
        = (ensureAll today region rest (ensureOdfEntryExists today st region sub).1).1
        from rfl] at he
    rcases ih _ e he with hmem | ⟨s, hs, hdef, hnex⟩
    · unfold ensureOdfEntryExists at hmem
      by_cases hex : entryExists st region sub = true
      · rw [if_pos hex] at hmem
        exact Or.inl hmem
      · rw [Bool.not_eq_true] at hex
        rw [if_neg (by simp [hex])] at hmem
        rcases List.mem_append.mp hmem with hmem | hmem
        · exact Or.inl hmem
        · rw [List.mem_singleton] at hmem
          exact Or.inr ⟨sub, List.mem_cons_self _ _, hmem, hex⟩
    · refine Or.inr ⟨s, List.mem_cons_of_mem _ hs, hdef, ?_⟩
      unfold ensureOdfEntryExists at hnex
      by_cases hex : entryExists st region sub = true
      · rw [if_pos hex] at hnex
        exact hnex
      · rw [Bool.not_eq_true] at hex
        rw [if_neg (by simp [hex])] at hnex
        rw [Bool.eq_false_iff] at hnex ⊢
        intro hex2
        apply hnex
        rcases (entryExists_iff _ _ _).mp hex2 with ⟨e2, he2, hr2, hs2⟩
        exact (entryExists_iff _ _ _).mpr ⟨e2, List.mem_append_left _ he2, hr2, hs2⟩

theorem added_not_removed (st : DbState) (region : String) (items : List String)
    (s : String) (h : s ∈ addedSubs st region items) : s ∉ removedSubs st region items := by
  unfold addedSubs at h
  unfold removedSubs
  rw [List.mem_filter] at h
  intro hmem
  rw [List.mem_filter] at hmem
  rcases h with ⟨_, hnc⟩
  rw [decide_eq_true_iff] at hnc
  exact hnc hmem.1

end Server

/-- C4: after reconciling region `R`'s roster with a desired membership
(trimmed, empties dropped, de-duplicated): every removed sub has no entry
afterwards, every added sub has one, entries are created only for added
subs with no pre-existing entry — so `createdCount ≤ |added|` — and every
newly created entry is the default one: 96 ports, each INACTIVE with empty
customer/identifier fields, `lastMaintained` = the current date, empty
`customFields`, and `extraFieldDefs = []`. -/
theorem C4_roster (st : Server.DbState) (region today : String) (items : List String) :
    (∀ sub ∈ Server.removedSubs st region items,
        Server.entryExists (Server.reconcile st region items today).1 region sub = false) ∧
      (∀ sub ∈ Server.addedSubs st region items,
        Server.entryExists (Server.reconcile st region items today).1 region sub = true) ∧
      (Server.reconcile st region items today).2.2.2
        ≤ (Server.addedSubs st region items).length ∧
      (∀ e ∈ (Server.reconcile st region items today).1.entries, e ∉ st.entries →
        e.region = region ∧ e.sub ∈ Server.addedSubs st region items ∧
        Server.entryExists st region e.sub = false ∧
        e.extraFieldDefs = [] ∧ e.ports.length = 96 ∧
        ∀ p ∈ e.ports, p.status = "INACTIVE" ∧ p.destination = "" ∧ p.otdrDistance = "" ∧
          p.otdrDistanceValue = "" ∧ p.branchingJoint = "" ∧ p.cxLocation = "" ∧
          p.notes = "" ∧ p.lastMaintained = today ∧ p.customFields = []) := by
  have hfst : (Server.reconcile st region items today).1
      = (Server.ensureAll today region (Server.addedSubs st region items)
          (Server.deleteEntries
            (Server.replaceRoster st region (Server.normalizeItems items))
            region (Server.removedSubs st region items))).1 := rfl
  have hsnd : (Server.reconcile st region items today).2.2.2
      = (Server.ensureAll today region (Server.addedSubs st region items)
          (Server.deleteEntries
            (Server.replaceRoster st region (Server.normalizeItems items))
            region (Server.removedSubs st region items))).2 := rfl
  refine ⟨?_, ?_, ?_, ?_⟩
  · intro sub hsub
    rw [hfst]
    refine Server.ensureAll_not_exists today region _ _ region sub ?_ ?_
    · exact Server.deleteEntries_not_exists _ region _ sub hsub
    · exact Or.inr (fun hmem => Server.added_not_removed st region items sub hmem hsub)
  · intro sub hsub
    rw [hfst]
    exact Server.ensureAll_exists_of_mem today region _ sub _ hsub
  · rw [hsnd]
    exact Server.ensureAll_created_le today region _ _
  · intro e he hnew
    rw [hfst] at he
    rcases Server.ensureAll_new_entries today region _ _ e he with hmem | ⟨s, hs, hdef, hnex⟩
    · exact absurd (Server.deleteEntries_mem _ _ _ e hmem) hnew
    · have hnex0 : Server.entryExists st region s = false := by
        have heq := Server.deleteEntries_exists_of_not_removed
          (Server.replaceRoster st region (Server.normalizeItems items)) region
          (Server.removedSubs st region items) region s
          (Server.added_not_removed st region items s hs)
        rw [heq] at hnex
        exact hnex
      subst hdef
      refine ⟨rfl, hs, hnex0, rfl, ?_, ?_⟩
      · simp [Server.defaultEntry, Server.createDefaultPorts]
      · intro p hp
        simp only [Server.defaultEntry, Server.createDefaultPorts, List.mem_map] at hp
        rcases hp with ⟨i, _, hpdef⟩
        subst hpdef
        exact ⟨rfl, rfl, rfl, rfl, rfl, rfl, rfl, rfl, rfl⟩

/-- Witness for C4 at Scenario C: region `North` changing from roster
`[A, B]` to `[B, C]` — entry `(North, A)` is gone, entry `(North, C)`
exists. -/
theorem C4_roster_witness :
    Server.entryExists
        (Server.reconcile
          { subregions := [("North", "A"), ("North", "B")],
            entries := [Server.defaultEntry "2026-01-01" "North" "A"] }
          "North" ["B", "C"] "2026-10-11").1 "North" "A" = false ∧
      Server.entryExists
        (Server.reconcile
          { subregions := [("North", "A"), ("North", "B")],
            entries := [Server.defaultEntry "2026-01-01" "North" "A"] }
          "North" ["B", "C"] "2026-10-11").1 "North" "C" = true :=
  ⟨(C4_roster
      { subregions := [("North", "A"), ("North", "B")],
        entries := [Server.defaultEntry "2026-01-01" "North" "A"] }
      "North" "2026-10-11" ["B", "C"]).1 "A" (by
        show "A" ∈ Server.removedSubs _ "North" ["B", "C"]
        rw [show Server.removedSubs
            { subregions := [("North", "A"), ("North", "B")],
              entries := [Server.defaultEntry "2026-01-01" "North" "A"] }
            "North" ["B", "C"] = ["A"] from rfl]
        exact List.mem_singleton_self "A"),
    (C4_roster
      { subregions := [("North", "A"), ("North", "B")],
        entries := [Server.defaultEntry "2026-01-01" "North" "A"] }
      "North" "2026-10-11" ["B", "C"]).2.1 "C" (by
        show "C" ∈ Server.addedSubs _ "North" ["B", "C"]
        rw [show Server.addedSubs
            { subregions := [("North", "A"), ("North", "B")],
              entries := [Server.defaultEntry "2026-01-01" "North" "A"] }
            "North" ["B", "C"] = ["C"] from rfl]
        exact List.mem_singleton_self "C")⟩

namespace Server

theorem deleteEntries_nil (st : DbState) (region : String) :
    deleteEntries st region [] = st := by
  unfold deleteEntries
  have hfil : st.entries.filter
      (fun e => ¬(e.region = region ∧ e.sub ∈ ([] : List String))) = st.entries := by
    apply List.filter_eq_self.mpr
    intro e _
    simp
  rw [hfil]

theorem ensureAllTx_ok (today region : String) (failAt : Option Nat) :
    ∀ (subs : List String) (ctr : Nat) (st st2 : DbState) (c ctr2 : Nat),
      ensureAllTx today region failAt subs ctr st = some (st2, c, ctr2) →
      st2 = (ensureAll today region subs st).1 ∧ c = (ensureAll today region subs st).2 := by
  intro subs
  induction subs with
  | nil =>
    intro ctr st st2 c ctr2 h
    unfold ensureAllTx at h
    injection h with h
    cases h
    exact ⟨rfl, rfl⟩
  | cons sub rest ih =>
    intro ctr st st2 c ctr2 h
    unfold ensureAllTx at h
    by_cases h0 : failAt = some ctr
    · rw [if_pos h0] at h
      cases h
    rw [if_neg h0] at h
    by_cases hex : entryExists st region sub = true
    · rw [if_pos hex] at h
      match hrec : ensureAllTx today region failAt rest (ctr + 1) st with
      | none => rw [hrec] at h; cases h
      | some (st3, c3, ctr3) =>
        rw [hrec] at h
        injection h with h
        cases h
        rcases ih _ _ _ _ _ hrec with ⟨hst, hc⟩
        have hstep : ensureOdfEntryExists today st region sub = (st, false) := by
          unfold ensureOdfEntryExists
          rw [if_pos hex]
        constructor
        · rw [hst]
          show (ensureAll today region rest st).1
            = (ensureAll today region rest (ensureOdfEntryExists today st region sub).1).1
          rw [hstep]
        · rw [hc]
          show (ensureAll today region rest st).2
            = (if (ensureOdfEntryExists today st region sub).2 = true then 1 else 0)
              + (ensureAll today region rest (ensureOdfEntryExists today st region sub).1).2
          rw [hstep]
          simp
    · rw [if_neg hex] at h
      by_cases h12 : failAt = some (ctr + 1) ∨ failAt = some (ctr + 2)
      · rw [if_pos h12] at h
        cases h
      rw [if_neg h12] at h
      match hrec : ensureAllTx today region failAt rest (ctr + 3)
          { st with entries := st.entries ++ [defaultEntry today region sub] } with
      | none => rw [hrec] at h; cases h
      | some (st3, c3, ctr3) =>
        rw [hrec] at h
        injection h with h
        cases h
        rcases ih _ _ _ _ _ hrec with ⟨hst, hc⟩
        rw [Bool.not_eq_true] at hex
        have hstep : ensureOdfEntryExists today st region sub
            = ({ st with entries := st.entries ++ [defaultEntry today region sub] }, true) := by
          unfold ensureOdfEntryExists
          rw [if_neg (by simp [hex])]
        constructor
        · rw [hst]
          show (ensureAll today region rest
              { st with entries := st.entries ++ [defaultEntry today region sub] }).1
            = (ensureAll today region rest (ensureOdfEntryExists today st region sub).1).1
          rw [hstep]
        · rw [hc]
          show 1 + (ensureAll today region rest
              { st with entries := st.entries ++ [defaultEntry today region sub] }).2
            = (if (ensureOdfEntryExists today st region sub).2 = true then 1 else 0)
              + (ensureAll today region rest (ensureOdfEntryExists today st region sub).1).2
          rw [hstep]
          simp

theorem ensureAllTx_total (today region : String) :
    ∀ (subs : List String) (ctr : Nat) (st : DbState),
      ∃ ctr2, ensureAllTx today region none subs ctr st
        = some ((ensureAll today region subs st).1, (ensureAll today region subs st).2, ctr2) := by
  intro subs
  induction subs with
  | nil =>
    intro ctr st
    exact ⟨ctr, rfl⟩
  | cons sub rest ih =>
    intro ctr st
    unfold ensureAllTx
    by_cases hex : entryExists st region sub = true
    · rw [if_neg (by simp), if_pos hex]
      rcases ih (ctr + 1) st with ⟨ctr2, hrec⟩
      refine ⟨ctr2, ?_⟩
      rw [hrec]
      have hstep : ensureOdfEntryExists today st region sub = (st, false) := by
        unfold ensureOdfEntryExists
        rw [if_pos hex]
      show _ = some ((ensureAll today region rest (ensureOdfEntryExists today st region sub).1).1,
        (if (ensureOdfEntryExists today st region sub).2 = true then 1 else 0)
          + (ensureAll today region rest (ensureOdfEntryExists today st region sub).1).2, ctr2)
      rw [hstep]
      simp
    · rw [Bool.not_eq_true] at hex
      rw [if_neg (by simp), if_neg (by simp [hex]), if_neg (by simp)]
      rcases ih (ctr + 3) { st with entries := st.entries ++ [defaultEntry today region sub] }
        with ⟨ctr2, hrec⟩
      refine ⟨ctr2, ?_⟩
      rw [hrec]
      have hstep : ensureOdfEntryExists today st region sub
          = ({ st with entries := st.entries ++ [defaultEntry today region sub] }, true) := by
        unfold ensureOdfEntryExists
        rw [if_neg (by simp [hex])]
      show _ = some ((ensureAll today region rest (ensureOdfEntryExists today st region sub).1).1,
        (if (ensureOdfEntryExists today st region sub).2 = true then 1 else 0)
          + (ensureAll today region rest (ensureOdfEntryExists today st region sub).1).2, ctr2)
      rw [hstep]
      simp

end Server

namespace Server

theorem reconcileTxInner_ok (st : DbState) (region : String) (items : List String)
    (today : String) (failAt : Option Nat) (p : DbState) (a r c : Nat)
    (h : reconcileTxInner st region items today failAt = some (p, a, r, c)) :
    p = (reconcile st region items today).1 ∧
      (a, r, c) = (reconcile st region items today).2 := by
  have hrepl_empty : (normalizeItems items).isEmpty = true →
      ({ st with subregions := st.subregions.filter (fun rs => rs.1 ≠ region) } : DbState)
        = replaceRoster st region (normalizeItems items) := by
    intro he
    unfold replaceRoster
    rw [List.isEmpty_iff.mp he]
    simp
  have hdel_empty : ∀ X : DbState, (removedSubs st region items).isEmpty = true →
      X = deleteEntries X region (removedSubs st region items) := by
    intro X he
    rw [List.isEmpty_iff.mp he, deleteEntries_nil]
  unfold reconcileTxInner at h
  by_cases h0 : failAt = some 0
  · rw [if_pos h0] at h; cases h
  rw [if_neg h0] at h
  by_cases h1 : failAt = some 1
  · rw [if_pos h1] at h; cases h
  rw [if_neg h1] at h
  dsimp only [] at h
  by_cases hempty : (normalizeItems items).isEmpty = true
  · rw [if_pos hempty] at h
    dsimp only [] at h
    by_cases hrem : (removedSubs st region items).isEmpty = true
    · rw [if_pos hrem] at h
      dsimp only [] at h
      match hE : ensureAllTx today region failAt (addedSubs st region items) 2
          { st with subregions := st.subregions.filter (fun rs => rs.1 ≠ region) } with
      | none => rw [hE] at h; cases h
      | some (p4, created, ctr4) =>
        rw [hE] at h
        dsimp only [] at h
        by_cases hC : failAt = some ctr4
        · rw [if_pos hC] at h; cases h
        rw [if_neg hC] at h
        injection h with h
        cases h
        rcases ensureAllTx_ok today region failAt _ _ _ _ _ _ hE with ⟨hst, hc⟩
        have hbase : ({ st with subregions :=
              st.subregions.filter (fun rs => rs.1 ≠ region) } : DbState)
            = deleteEntries (replaceRoster st region (normalizeItems items)) region
              (removedSubs st region items) := by
          rw [← hdel_empty _ hrem, hrepl_empty hempty]
        rw [hbase] at hst hc
        exact ⟨hst, by rw [hc]; rfl⟩
    · rw [if_neg hrem] at h
      by_cases h2 : failAt = some 2
      · rw [if_pos h2] at h
        dsimp only [] at h
        cases h
      rw [if_neg h2] at h
      dsimp only [] at h
      match hE : ensureAllTx today region failAt (addedSubs st region items) 3
          (deleteEntries
            { st with subregions := st.subregions.filter (fun rs => rs.1 ≠ region) } region
            (removedSubs st region items)) with
      | none => rw [hE] at h; cases h
      | some (p4, created, ctr4) =>
        rw [hE] at h
        dsimp only [] at h
        by_cases hC : failAt = some ctr4
        · rw [if_pos hC] at h; cases h
        rw [if_neg hC] at h
        injection h with h
        cases h
        rcases ensureAllTx_ok today region failAt _ _ _ _ _ _ hE with ⟨hst, hc⟩
        have hbase : deleteEntries
              { st with subregions := st.subregions.filter (fun rs => rs.1 ≠ region) } region
              (removedSubs st region items)
            = deleteEntries (replaceRoster st region (normalizeItems items)) region
              (removedSubs st region items) := by
          rw [hrepl_empty hempty]
        rw [hbase] at hst hc
        exact ⟨hst, by rw [hc]; rfl⟩
  · rw [if_neg hempty] at h
    by_cases h2 : failAt = some 2
    · rw [if_pos h2] at h
      dsimp only [] at h
      cases h
    rw [if_neg h2] at h
    dsimp only [] at h
    by_cases hrem : (removedSubs st region items).isEmpty = true
    · rw [if_pos hrem] at h
      dsimp only [] at h
      match hE : ensureAllTx today region failAt (addedSubs st region items) 3
          { st with subregions := st.subregions.filter (fun rs => rs.1 ≠ region)
              ++ (normalizeItems items).map (fun s => (region, s)) } with
      | none => rw [hE] at h; cases h
      | some (p4, created, ctr4) =>
        rw [hE] at h
        dsimp only [] at h
        by_cases hC : failAt = some ctr4
        · rw [if_pos hC] at h; cases h
        rw [if_neg hC] at h
        injection h with h
        cases h
        rcases ensureAllTx_ok today region failAt _ _ _ _ _ _ hE with ⟨hst, hc⟩
        have hbase : ({ st with subregions := st.subregions.filter (fun rs => rs.1 ≠ region)
              ++ (normalizeItems items).map (fun s => (region, s)) } : DbState)
            = deleteEntries (replaceRoster st region (normalizeItems items)) region
              (removedSubs st region items) := by
          rw [← hdel_empty _ hrem]
          rfl
        rw [hbase] at hst hc
        exact ⟨hst, by rw [hc]; rfl⟩
    · rw [if_neg hrem] at h
      by_cases h3 : failAt = some 3
      · rw [if_pos h3] at h
        dsimp only [] at h
        cases h
      rw [if_neg h3] at h
      dsimp only [] at h
      match hE : ensureAllTx today region failAt (addedSubs st region items) 4
          (deleteEntries
            { st with subregions := st.subregions.filter (fun rs => rs.1 ≠ region)
                ++ (normalizeItems items).map (fun s => (region, s)) } region
            (removedSubs st region items)) with
      | none => rw [hE] at h; cases h
      | some (p4, created, ctr4) =>
        rw [hE] at h
        dsimp only [] at h
        by_cases hC : failAt = some ctr4
        · rw [if_pos hC] at h; cases h
        rw [if_neg hC] at h
        injection h with h
        cases h
        rcases ensureAllTx_ok today region failAt _ _ _ _ _ _ hE with ⟨hst, hc⟩
        exact ⟨hst, by rw [hc]; rfl⟩

end Server

theorem Server.reconcileTxInner_total (st : Server.DbState) (region : String)
    (items : List String) (today : String) :
    ∃ out, Server.reconcileTxInner st region items today none = some out := by
  unfold Server.reconcileTxInner
  rw [if_neg (by simp), if_neg (by simp)]
  dsimp only []
  by_cases hempty : (Server.normalizeItems items).isEmpty = true
  · rw [if_pos hempty]
    dsimp only []
    by_cases hrem : (Server.removedSubs st region items).isEmpty = true
    · rw [if_pos hrem]
      dsimp only []
      rcases Server.ensureAllTx_total today region (Server.addedSubs st region items) 2
        { st with subregions := st.subregions.filter (fun rs => rs.1 ≠ region) }
        with ⟨ctr2, hE⟩
      rw [hE]
      dsimp only []
      rw [if_neg (by simp)]
      exact ⟨_, rfl⟩
    · rw [if_neg hrem, if_neg (by simp)]
      dsimp only []
      rcases Server.ensureAllTx_total today region (Server.addedSubs st region items) 3
        (Server.deleteEntries
          { st with subregions := st.subregions.filter (fun rs => rs.1 ≠ region) } region
          (Server.removedSubs st region items)) with ⟨ctr2, hE⟩
      rw [hE]
      dsimp only []
      rw [if_neg (by simp)]
      exact ⟨_, rfl⟩
  · rw [if_neg hempty, if_neg (by simp)]
    dsimp only []
    by_cases hrem : (Server.removedSubs st region items).isEmpty = true
    · rw [if_pos hrem]
      dsimp only []
      rcases Server.ensureAllTx_total today region (Server.addedSubs st region items) 3
        { st with subregions := st.subregions.filter (fun rs => rs.1 ≠ region)
            ++ (Server.normalizeItems items).map (fun s => (region, s)) } with ⟨ctr2, hE⟩
      rw [hE]
      dsimp only []
      rw [if_neg (by simp)]
      exact ⟨_, rfl⟩
    · rw [if_neg hrem, if_neg (by simp)]
      dsimp only []
      rcases Server.ensureAllTx_total today region (Server.addedSubs st region items) 4
        (Server.deleteEntries
          { st with subregions := st.subregions.filter (fun rs => rs.1 ≠ region)
              ++ (Server.normalizeItems items).map (fun s => (region, s)) } region
          (Server.removedSubs st region items)) with ⟨ctr2, hE⟩
      rw [hE]
      dsimp only []
      rw [if_neg (by simp)]
      exact ⟨_, rfl⟩

/-- C7: the roster reconciliation is atomic and failures are reported.  For
every store state, request and failure oracle: when the handler answers
`ok`, the visible state carries the full effect — roster replacement,
cascade deletions and default-entry creations — exactly as the pure
reconciliation computes it, with the same reported counts; when any
numbered store call throws, the transaction is rolled back, the visible
state is the original one unchanged, and the handler reports the error
instead of success; and with no failure the handler always answers `ok`. -/
theorem C7_transaction (st : Server.DbState) (region : String) (items : List String)
    (today : String) (failAt : Option Nat) :
    (∀ counts, (Server.reconcileTx st region items today failAt).1 = .ok counts →
        (Server.reconcileTx st region items today failAt).2
            = (Server.reconcile st region items today).1 ∧
          counts = (Server.reconcile st region items today).2) ∧
      ((Server.reconcileTx st region items today failAt).1 = .error () →
        (Server.reconcileTx st region items today failAt).2 = st) ∧
      (failAt = none →
        ∃ counts, (Server.reconcileTx st region items today failAt).1 = .ok counts) := by
  unfold Server.reconcileTx
  cases hI : Server.reconcileTxInner st region items today failAt with
  | some out =>
    obtain ⟨p, a, r, c⟩ := out
    rcases Server.reconcileTxInner_ok st region items today failAt p a r c hI with ⟨hp, hc⟩
    refine ⟨?_, ?_, ?_⟩
    · intro counts hok
      injection hok with hok
      cases hok
      exact ⟨hp, hc⟩
    · intro herr
      cases herr
    · intro _
      exact ⟨(a, r, c), rfl⟩
  | none =>
    refine ⟨?_, ?_, ?_⟩
    · intro counts hok
      cases hok
    · intro _
      rfl
    · intro hnone
      subst hnone
      rcases Server.reconcileTxInner_total st region items today with ⟨out, hout⟩
      rw [hout] at hI
      cases hI

/-- Witness for C7: a failing first call leaves the store untouched, and a
failure-free run answers `ok`. -/
theorem C7_transaction_witness :
    (Server.reconcileTx { subregions := [], entries := [] } "R" ["A"] "d" (some 0)).2
        = { subregions := [], entries := [] } ∧
      ∃ counts,
        (Server.reconcileTx { subregions := [], entries := [] } "R" ["A"] "d" none).1
          = .ok counts :=
  ⟨(C7_transaction { subregions := [], entries := [] } "R" ["A"] "d" (some 0)).2.1 (by rfl),
    (C7_transaction { subregions := [], entries := [] } "R" ["A"] "d" none).2.2 rfl⟩

/-! ## C5/C6: keyword search -/

/-- Decimal digit characters have the expected code points. -/
theorem decDigit_toNat (d : Nat) (hd : d < 10) : (decDigit d).toNat = 48 + d := by
  interval_cases d <;> decide

/-- Folding the decimal digits back recovers the number. -/
theorem natDigitsAux_foldl : ∀ (fuel n : Nat), n < fuel →
    (natDigitsAux fuel n).foldl (fun a c => a * 10 + (c.toNat - 48)) 0 = n
  | 0, n, h => by omega
  | fuel + 1, n, h => by
    unfold natDigitsAux
    by_cases h10 : n < 10
    · rw [if_pos h10]
      simp only [List.foldl_cons, List.foldl_nil]
      rw [decDigit_toNat n h10]
      omega
    · rw [if_neg h10]
      rw [List.foldl_append]
      have hdiv : n / 10 < fuel := by
        have hlt : n / 10 < n := Nat.div_lt_self (by omega) (by omega)
        omega
      rw [natDigitsAux_foldl fuel (n / 10) hdiv]
      simp only [List.foldl_cons, List.foldl_nil]
      rw [decDigit_toNat (n % 10) (Nat.mod_lt n (by omega))]
      omega

/-- Decimal rendering of naturals is injective. -/
theorem natToStr_inj (a b : Nat) (h : natToStr a = natToStr b) : a = b := by
  have h2 := congrArg (fun s => s.data.foldl (fun a c => a * 10 + (c.toNat - 48)) 0) h
  simp only [natToStr] at h2
  rw [natDigitsAux_foldl (a + 1) a (by omega), natDigitsAux_foldl (b + 1) b (by omega)] at h2
  exact h2

theorem intToStr_ofNat (m : Nat) : intToStr (Int.ofNat m) = natToStr m := by
  unfold intToStr
  have hneg : ¬Int.ofNat m < 0 := by
    rw [Int.not_lt]
    exact Int.ofNat_nonneg m
  rw [if_neg hneg]
  rw [show (Int.ofNat m).toNat = m from rfl]

/-- Left cancellation for string concatenation. -/
theorem strApp_left_cancel (s a b : String) (h : s ++ a = s ++ b) : a = b := by
  have h2 := congrArg String.data h
  simp only [String.data_append] at h2
  exact String.ext (List.append_cancel_left h2)

namespace Server

/-- The push loop without its limit check (proof-side companion). -/
def pushAll (acc : List (String × SearchItem)) : List SearchItem → List (String × SearchItem)
  | [] => acc
  | it :: rest =>
    pushAll (if acc.any (fun p => p.1 = itemKey it) then acc else acc ++ [(itemKey it, it)]) rest

theorem pushLoop_eq_pushAll (limit : Nat) :
    ∀ (xs : List SearchItem) (acc : List (String × SearchItem)),
      acc.length + xs.length ≤ limit → pushLoop limit acc xs = pushAll acc xs
  | [], acc, _ => rfl
  | it :: rest, acc, hb => by
    unfold pushLoop pushAll
    have hlen2 : (if acc.any (fun p => p.1 = itemKey it) then acc
        else acc ++ [(itemKey it, it)]).length ≤ acc.length + 1 := by
      by_cases hany : acc.any (fun p => p.1 = itemKey it) = true
      · rw [if_pos hany]; omega
      · rw [if_neg hany]; simp
    by_cases hbr : limit ≤ (if acc.any (fun p => p.1 = itemKey it) then acc
        else acc ++ [(itemKey it, it)]).length
    · rw [if_pos hbr]
      have hrest : rest = [] := by
        cases rest with
        | nil => rfl
        | cons y ys => simp only [List.length_cons] at hb; omega
      subst hrest
      rfl
    · rw [if_neg hbr]
      refine pushLoop_eq_pushAll limit rest _ ?_
      simp only [List.length_cons] at hb
      omega

theorem pushAll_length : ∀ (xs : List SearchItem) (acc : List (String × SearchItem)),
    (pushAll acc xs).length ≤ acc.length + xs.length
  | [], acc => by simp [pushAll]
  | it :: rest, acc => by
    unfold pushAll
    have hrec := pushAll_length rest (if acc.any (fun p => p.1 = itemKey it) then acc
      else acc ++ [(itemKey it, it)])
    have hlen2 : (if acc.any (fun p => p.1 = itemKey it) then acc
        else acc ++ [(itemKey it, it)]).length ≤ acc.length + 1 := by
      by_cases hany : acc.any (fun p => p.1 = itemKey it) = true
      · rw [if_pos hany]; omega
      · rw [if_neg hany]; simp
    simp only [List.length_cons]
    omega

theorem pushLoop_mem (limit : Nat) :
    ∀ (xs : List SearchItem) (acc : List (String × SearchItem)) (q : String × SearchItem),
      q ∈ pushLoop limit acc xs → q ∈ acc ∨ (q.2 ∈ xs ∧ q.1 = itemKey q.2)
  | [], acc, q, h => Or.inl h
  | it :: rest, acc, q, h => by
    unfold pushLoop at h
    have hsplit : q ∈ (if acc.any (fun p => p.1 = itemKey it) then acc
        else acc ++ [(itemKey it, it)]) → q ∈ acc ∨ (q.2 ∈ it :: rest ∧ q.1 = itemKey q.2) := by
      intro hq
      by_cases hany : acc.any (fun p => p.1 = itemKey it) = true
      · rw [if_pos hany] at hq
        exact Or.inl hq
      · rw [if_neg hany] at hq
        rcases List.mem_append.mp hq with hq | hq
        · exact Or.inl hq
        · rw [List.mem_singleton] at hq
          subst hq
          exact Or.inr ⟨List.mem_cons_self _ _, rfl⟩
    by_cases hbr : limit ≤ (if acc.any (fun p => p.1 = itemKey it) then acc
        else acc ++ [(itemKey it, it)]).length
    · rw [if_pos hbr] at h
      exact hsplit h
    · rw [if_neg hbr] at h
      rcases pushLoop_mem limit rest _ q h with hq | ⟨hq1, hq2⟩
      · exact hsplit hq
      · exact Or.inr ⟨List.mem_cons_of_mem _ hq1, hq2⟩

theorem pushAll_exists_key (K : String) (P : SearchItem → Prop) :
    ∀ (xs : List SearchItem) (acc : List (String × SearchItem)),
      (∀ q ∈ acc, q.1 = K → P q.2) →
      (∀ y ∈ xs, itemKey y = K → P y) →
      ((∃ y ∈ xs, itemKey y = K) ∨ (∃ q ∈ acc, q.1 = K)) →
      ∃ q ∈ pushAll acc xs, q.1 = K ∧ P q.2
  | [], acc, hacc, _, hk => by
    rcases hk with ⟨y, hy, _⟩ | ⟨q, hq, hqk⟩
    · cases hy
    · exact ⟨q, hq, hqk, hacc q hq hqk⟩
  | it :: rest, acc, hacc, hxs, hk => by
    unfold pushAll
    have hacc2 : ∀ q ∈ (if acc.any (fun p => p.1 = itemKey it) then acc
        else acc ++ [(itemKey it, it)]), q.1 = K → P q.2 := by
      intro q hq hqk
      by_cases hany : acc.any (fun p => p.1 = itemKey it) = true
      · rw [if_pos hany] at hq
        exact hacc q hq hqk
      · rw [if_neg hany] at hq
        rcases List.mem_append.mp hq with hq | hq
        · exact hacc q hq hqk
        · rw [List.mem_singleton] at hq
          subst hq
          exact hxs it (List.mem_cons_self _ _) hqk
    refine pushAll_exists_key K P rest _ hacc2
      (fun y hy hyk => hxs y (List.mem_cons_of_mem _ hy) hyk) ?_
    rcases hk with ⟨y, hy, hyk⟩ | ⟨q, hq, hqk⟩
    · rcases List.mem_cons.mp hy with hy | hy
      · subst hy
        by_cases hany : acc.any (fun p => p.1 = itemKey y) = true
        · refine Or.inr ?_
          rw [if_pos hany]
          rcases List.any_eq_true.mp hany with ⟨q, hq, hqk2⟩
          exact ⟨q, hq, (of_decide_eq_true hqk2).trans hyk⟩
        · refine Or.inr ?_
          rw [if_neg hany]
          exact ⟨(itemKey y, y), List.mem_append_right _ (List.mem_singleton_self _), hyk⟩
      · exact Or.inl ⟨y, hy, hyk⟩
    · refine Or.inr ?_
      by_cases hany : acc.any (fun p => p.1 = itemKey it) = true
      · rw [if_pos hany]
        exact ⟨q, hq, hqk⟩
      · rw [if_neg hany]
        exact ⟨q, List.mem_append_left _ hq, hqk⟩

end Server

/-- The single port row used by `searchDemoDb`. -/
def searchDemoPort (subStatus subNotes : String) : Server.SPort :=
  { id := 1
    label := "PORT-001"
    status := subStatus
    fiberType := ""
    connectorType := ""
    destination := ""
    otdrDistance := ""
    otdrDistanceValue := ""
    lastMaintained := "d"
    branchingJoint := ""
    cxLocation := ""
    notes := subNotes
    customFields := [] }

/-- The single entry used by `searchDemoDb`. -/
def searchDemoEntry (subStatus subNotes : String) : Server.Entry :=
  { region := "R1"
    sub := "S1"
    displayCount := 1
    extraFieldDefs := []
    lastSave := "d"
    ports := [searchDemoPort subStatus subNotes] }

/-- A one-entry, one-port store used to exercise the search engine. -/
def searchDemoDb (subStatus subNotes : String) : Server.DbState :=
  { subregions := []
    entries := [searchDemoEntry subStatus subNotes] }

/-- The single result row `searchData` produces on `searchDemoDb`. -/
def searchDemoItem (subStatus keyword : String) : Server.SearchItem :=
  { region := "R1", sub := "S1", storageKey := "R1||S1"
    jsonPath := "odf[\"R1||S1\"].ports[0]"
    matchedValue := "Port 1: PORT-001 | " ++ subStatus ++ " |"
    link := "/odf.html?region=R1&sub=S1&port=1"
    exactLink := "/odf.html?region=R1&sub=S1&port=1"
    portNumber := some 1, fieldPath := "", keyword := keyword }

/-- C6 fails on the code: a keyword matching only a port's `notes` column
is returned with a preview `Port N: label | status | destination` that does
not contain the keyword (and the match is a port match, not a metadata
one), so the case-folded keyword is not a substring of the case-folded
preview. -/
theorem C6_cex :
    (Server.searchData (searchDemoDb "INACTIVE" "zebra") "zebra").2.2
        = [searchDemoItem "INACTIVE" "zebra"] ∧
      (searchDemoItem "INACTIVE" "zebra").portNumber = some 1 ∧
      strContains (jsToLower (searchDemoItem "INACTIVE" "zebra").matchedValue)
        (jsToLower (jsTrim "zebra")) = false := by
  refine ⟨by rfl, rfl, by rfl⟩

/-- C6 amended: search always returns at most 100 results, and every
returned match comes from a row whose *searched columns* satisfy the SQL
predicate `LIKE '%keyword%'` with the case-folded keyword interpolated raw
(`%`, `_` and `\` in it stay live wildcards) — region/sub/`extraFieldDefs`
JSON for a metadata match (`portNumber = null`), the eleven searched port
columns for a port match — but the keyword need not occur in the
`matchedValue` preview itself. -/
theorem C6_search_bound (st : Server.DbState) (keyword : String) :
    (Server.searchData st keyword).2.2.length ≤ 100 ∧
      ∀ it ∈ (Server.searchData st keyword).2.2,
        (it.portNumber = none ∧ ∃ e ∈ st.entries,
            it.region = e.region ∧ it.sub = e.sub ∧
            Server.metaMatches (jsToLower (jsTrim keyword)) e = true) ∨
        (∃ e ∈ st.entries, ∃ p ∈ e.ports,
            it.region = e.region ∧ it.sub = e.sub ∧ it.portNumber = some p.id ∧
            Server.portRowMatches (jsToLower (jsTrim keyword)) p = true) := by
  constructor
  · obtain ⟨l, hl⟩ : ∃ l : List Server.SearchItem,
        (Server.searchData st keyword).2.2 = l.take 100 := ⟨_, rfl⟩
    rw [hl]
    exact List.length_take_le 100 l
  · intro it hit
    have hm : (Server.searchData st keyword).2.2
        = ((Server.pushLoop 100
            (Server.pushLoop 100 []
              (((st.entries.filter
                  (fun e => Server.metaMatches (jsToLower (jsTrim keyword)) e)).take 100).map
                (fun e => Server.mkMetaItem (jsTrim keyword) e)))
            ((((Server.allPortRows st).filter
                (fun r => Server.portRowMatches (jsToLower (jsTrim keyword)) r.2.2)).take 100).map
              (fun r => Server.mkPortItem (jsTrim keyword) r.1 r.2.1 r.2.2))).map
            Prod.snd).take 100 := rfl
    rw [hm] at hit
    have hit2 := List.mem_of_mem_take hit
    rcases List.mem_map.mp hit2 with ⟨q, hq, hq2⟩
    rcases Server.pushLoop_mem 100 _ _ q hq with hq3 | ⟨hq3, _⟩
    · rcases Server.pushLoop_mem 100 _ _ q hq3 with hq4 | ⟨hq4, _⟩
      · cases hq4
      · rcases List.mem_map.mp hq4 with ⟨e, he, hee⟩
        have he2 := List.mem_of_mem_take he
        rcases List.mem_filter.mp he2 with ⟨hemem, hematch⟩
        left
        rw [← hq2, ← hee]
        exact ⟨rfl, e, hemem, rfl, rfl, hematch⟩
    · rcases List.mem_map.mp hq3 with ⟨r, hr, hre⟩
      have hr2 := List.mem_of_mem_take hr
      rcases List.mem_filter.mp hr2 with ⟨hrmem, hrmatch⟩
      rcases List.mem_flatMap.mp hrmem with ⟨e, hemem, hrow⟩
      rcases List.mem_map.mp hrow with ⟨p, hpmem, hpe⟩
      right
      rw [← hq2, ← hre, ← hpe]
      refine ⟨e, hemem, p, hpmem, rfl, rfl, rfl, ?_⟩
      rw [← hpe] at hrmatch
      exact hrmatch

/-- Witness for C6 amended at the `zebra` store: the bound holds and the
returned match traces back to the port whose notes contain the keyword. -/
theorem C6_search_bound_witness :
    (Server.searchData (searchDemoDb "INACTIVE" "zebra") "zebra").2.2.length ≤ 100 ∧
      (((searchDemoItem "INACTIVE" "zebra").portNumber = none ∧
          ∃ e ∈ (searchDemoDb "INACTIVE" "zebra").entries,
            (searchDemoItem "INACTIVE" "zebra").region = e.region ∧
            (searchDemoItem "INACTIVE" "zebra").sub = e.sub ∧
            Server.metaMatches (jsToLower (jsTrim "zebra")) e = true) ∨
        (∃ e ∈ (searchDemoDb "INACTIVE" "zebra").entries, ∃ p ∈ e.ports,
            (searchDemoItem "INACTIVE" "zebra").region = e.region ∧
            (searchDemoItem "INACTIVE" "zebra").sub = e.sub ∧
            (searchDemoItem "INACTIVE" "zebra").portNumber = some p.id ∧
            Server.portRowMatches (jsToLower (jsTrim "zebra")) p = true)) :=
  ⟨(C6_search_bound (searchDemoDb "INACTIVE" "zebra") "zebra").1,
    (C6_search_bound (searchDemoDb "INACTIVE" "zebra") "zebra").2
      (searchDemoItem "INACTIVE" "zebra")
      (by rw [show (Server.searchData (searchDemoDb "INACTIVE" "zebra") "zebra").2.2
          = [searchDemoItem "INACTIVE" "zebra"] from by rfl]
          exact List.mem_singleton_self _)⟩

/-- C5 fails on the code: searching `faulty` against an entry whose only
port has `status = "FAULTY"` does return the match with `portNumber = 1`,
but its `fieldPath` is the empty string — `searchData` hard-codes
`fieldPath: ''` on every result — not `"status"`. -/
theorem C5_cex :
    (Server.searchData (searchDemoDb "FAULTY" "") "faulty").2.2
        = [searchDemoItem "FAULTY" "faulty"] ∧
      (searchDemoItem "FAULTY" "faulty").portNumber = some 1 ∧
      (searchDemoItem "FAULTY" "faulty").fieldPath = "" ∧
      "" ≠ "status" := by
  refine ⟨by rfl, rfl, rfl, by decide⟩

set_option maxHeartbeats 1600000 in
/-- C5 amended: for a store holding one entry whose ports are canonically
numbered (`ports[k].id = k + 1`), with at most 99 ports, whose metadata
(region, sub, `extraFieldDefs` JSON) does not itself match `faulty`:
if the port at position `i` has `status = "FAULTY"`, then searching
`"faulty"` returns a match with `portNumber = i + 1` (the port's 1-based
number) and `fieldPath = ""` — the sub-path is always reported empty. -/
theorem C5_faulty_search (subs : List (String × String)) (e : Server.Entry) (i : Nat)
    (hi : i < e.ports.length) (hlen : e.ports.length ≤ 99)
    (hcan : ∀ k (hk : k < e.ports.length), (e.ports.get ⟨k, hk⟩).id = Int.ofNat (k + 1))
    (hst : (e.ports.get ⟨i, hi⟩).status = "FAULTY")
    (hmeta : Server.metaMatches "faulty" e = false) :
    ∃ it ∈ (Server.searchData { subregions := subs, entries := [e] } "faulty").2.2,
      it.portNumber = some (Int.ofNat (i + 1)) ∧ it.fieldPath = "" := by
  have hitems : (Server.searchData { subregions := subs, entries := [e] } "faulty").2.2
      = ((Server.pushLoop 100
          (Server.pushLoop 100 []
            ((([e].filter (fun x => Server.metaMatches "faulty" x)).take 100).map
              (fun x => Server.mkMetaItem "faulty" x)))
          ((((Server.allPortRows { subregions := subs, entries := [e] }).filter
              (fun r => Server.portRowMatches "faulty" r.2.2)).take 100).map
            (fun r => Server.mkPortItem "faulty" r.1 r.2.1 r.2.2))).map Prod.snd).take 100 :=
    rfl
  have hmfil : [e].filter (fun x => Server.metaMatches "faulty" x) = [] := by
    simp [List.filter, hmeta]
  have hrows : Server.allPortRows { subregions := subs, entries := [e] }
      = e.ports.map (fun p => (e.region, e.sub, p)) := by
    unfold Server.allPortRows
    simp
  rw [hmfil, hrows] at hitems
  have hflen : ((e.ports.map (fun p => (e.region, e.sub, p))).filter
      (fun r => Server.portRowMatches "faulty" r.2.2)).length ≤ 99 := by
    refine le_trans (List.length_filter_le _ _) ?_
    rw [List.length_map]
    exact hlen
  have htake1 : ((e.ports.map (fun p => (e.region, e.sub, p))).filter
        (fun r => Server.portRowMatches "faulty" r.2.2)).take 100
      = (e.ports.map (fun p => (e.region, e.sub, p))).filter
        (fun r => Server.portRowMatches "faulty" r.2.2) :=
    List.take_of_length_le (by omega)
  rw [htake1] at hitems
  rw [show ((([] : List Server.Entry).take 100).map
      (fun x => Server.mkMetaItem "faulty" x)) = [] from rfl] at hitems
  rw [show (Server.pushLoop 100 [] ([] : List Server.SearchItem)) = [] from rfl] at hitems
  have hplen : (((e.ports.map (fun p => (e.region, e.sub, p))).filter
      (fun r => Server.portRowMatches "faulty" r.2.2)).map
        (fun r => Server.mkPortItem "faulty" r.1 r.2.1 r.2.2)).length ≤ 99 := by
    rw [List.length_map]
    exact hflen
  have hpl : Server.pushLoop 100 []
        (((e.ports.map (fun p => (e.region, e.sub, p))).filter
            (fun r => Server.portRowMatches "faulty" r.2.2)).map
          (fun r => Server.mkPortItem "faulty" r.1 r.2.1 r.2.2))
      = Server.pushAll []
        (((e.ports.map (fun p => (e.region, e.sub, p))).filter
            (fun r => Server.portRowMatches "faulty" r.2.2)).map
          (fun r => Server.mkPortItem "faulty" r.1 r.2.1 r.2.2)) := by
    refine Server.pushLoop_eq_pushAll 100 _ [] ?_
    rw [List.length_nil]
    omega
  rw [hpl] at hitems
  have hmatch : Server.portRowMatches "faulty" (e.ports.get ⟨i, hi⟩) = true := by
    unfold Server.portRowMatches
    rw [hst]
    rw [show likeMatch (likePat "faulty") (jsToLower "FAULTY").data = true from rfl]
    simp
  have hrowmem : (e.region, e.sub, e.ports.get ⟨i, hi⟩)
      ∈ (e.ports.map (fun p => (e.region, e.sub, p))).filter
        (fun r => Server.portRowMatches "faulty" r.2.2) := by
    rw [List.mem_filter]
    exact ⟨List.mem_map.mpr ⟨e.ports.get ⟨i, hi⟩, List.get_mem _ _ _, rfl⟩, hmatch⟩
  have hall : ∀ y ∈ (((e.ports.map (fun p => (e.region, e.sub, p))).filter
        (fun r => Server.portRowMatches "faulty" r.2.2)).map
      (fun r => Server.mkPortItem "faulty" r.1 r.2.1 r.2.2)),
      Server.itemKey y
        = Server.itemKey (Server.mkPortItem "faulty" e.region e.sub (e.ports.get ⟨i, hi⟩)) →
      y.portNumber = some (Int.ofNat (i + 1)) ∧ y.fieldPath = "" := by
    intro y hy hyk
    rcases List.mem_map.mp hy with ⟨r, hr, hry⟩
    rcases List.mem_map.mp (List.mem_of_mem_filter hr) with ⟨p, hp, hpr⟩
    rcases List.mem_iff_get.mp hp with ⟨⟨k, hk⟩, hkp⟩
    have hkey2 : Server.itemKey y
        = e.region ++ "||" ++ e.sub ++ "||" ++ intToStr p.id := by
      rw [← hry, ← hpr]
      rfl
    have hkeyi : Server.itemKey
        (Server.mkPortItem "faulty" e.region e.sub (e.ports.get ⟨i, hi⟩))
        = e.region ++ "||" ++ e.sub ++ "||" ++ intToStr (e.ports.get ⟨i, hi⟩).id := rfl
    rw [hkey2, hkeyi] at hyk
    have hid : intToStr p.id = intToStr (e.ports.get ⟨i, hi⟩).id :=
      strApp_left_cancel _ _ _ hyk
    rw [← hkp, hcan k hk, hcan i hi, intToStr_ofNat, intToStr_ofNat] at hid
    have hki : k = i := by
      have hinj := natToStr_inj _ _ hid
      omega
    subst hki
    rw [← hry, ← hpr, ← hkp]
    exact ⟨congrArg some (hcan k hk), rfl⟩
  have hmem2 : Server.mkPortItem "faulty" e.region e.sub (e.ports.get ⟨i, hi⟩)
      ∈ (((e.ports.map (fun p => (e.region, e.sub, p))).filter
          (fun r => Server.portRowMatches "faulty" r.2.2)).map
        (fun r => Server.mkPortItem "faulty" r.1 r.2.1 r.2.2)) := by
    refine List.mem_map.mpr ⟨(e.region, e.sub, e.ports.get ⟨i, hi⟩), hrowmem, ?_⟩
    rfl
  have hk0 : (∃ y ∈ (((e.ports.map (fun p => (e.region, e.sub, p))).filter
          (fun r => Server.portRowMatches "faulty" r.2.2)).map
        (fun r => Server.mkPortItem "faulty" r.1 r.2.1 r.2.2)),
        Server.itemKey y
          = Server.itemKey (Server.mkPortItem "faulty" e.region e.sub (e.ports.get ⟨i, hi⟩)))
      ∨ (∃ q ∈ ([] : List (String × Server.SearchItem)),
        q.1 = Server.itemKey (Server.mkPortItem "faulty" e.region e.sub (e.ports.get ⟨i, hi⟩))) :=
    Or.inl ⟨Server.mkPortItem "faulty" e.region e.sub (e.ports.get ⟨i, hi⟩), hmem2, rfl⟩
  have hex := Server.pushAll_exists_key
    (Server.itemKey (Server.mkPortItem "faulty" e.region e.sub (e.ports.get ⟨i, hi⟩)))
    (fun y => y.portNumber = some (Int.ofNat (i + 1)) ∧ y.fieldPath = "")
    (((e.ports.map (fun p => (e.region, e.sub, p))).filter
        (fun r => Server.portRowMatches "faulty" r.2.2)).map
      (fun r => Server.mkPortItem "faulty" r.1 r.2.1 r.2.2)) []
    (by intro q hq; cases hq)
    hall
    hk0
  rcases hex with ⟨q, hq, _, hP⟩
  refine ⟨q.2, ?_, hP⟩
  rw [hitems]
  have hfinal : ((Server.pushAll []
        (((e.ports.map (fun p => (e.region, e.sub, p))).filter
            (fun r => Server.portRowMatches "faulty" r.2.2)).map
          (fun r => Server.mkPortItem "faulty" r.1 r.2.1 r.2.2))).map Prod.snd).take 100
      = (Server.pushAll []
        (((e.ports.map (fun p => (e.region, e.sub, p))).filter
            (fun r => Server.portRowMatches "faulty" r.2.2)).map
          (fun r => Server.mkPortItem "faulty" r.1 r.2.1 r.2.2))).map Prod.snd := by
    refine List.take_of_length_le ?_
    rw [List.length_map]
    have hpa := Server.pushAll_length
      (((e.ports.map (fun p => (e.region, e.sub, p))).filter
          (fun r => Server.portRowMatches "faulty" r.2.2)).map
        (fun r => Server.mkPortItem "faulty" r.1 r.2.1 r.2.2)) []
    rw [List.length_nil] at hpa
    omega
  rw [hfinal]
  exact List.mem_map.mpr ⟨q, hq, rfl⟩

/-- Witness for C5 amended at Scenario D: the one-FAULTY-port store. -/
theorem C5_faulty_search_witness :
    ∃ it ∈ (Server.searchData
        { subregions := [], entries := [searchDemoEntry "FAULTY" ""] } "faulty").2.2,
      it.portNumber = some 1 ∧ it.fieldPath = "" :=
  C5_faulty_search [] (searchDemoEntry "FAULTY" "") 0 (by decide) (by decide)
    (fun k hk => by
      have hk0 : k = 0 := by
        have : (searchDemoEntry "FAULTY" "").ports.length = 1 := rfl
        omega
      subst hk0
      rfl)
    rfl (by rfl)

/-! ## C8: idempotence of normalization -/

/-- A value whose `cleanText` image is stable under a second pass: absent,
null, boolean, number or string — not an array or object (`String(...)` of
a composite can itself look like `"null"` and be cleared on a re-run). -/
def textyVal : Option JVal → Bool
  | some (.jarr _) => false
  | some (.jobj _) => false
  | _ => true

/-- All nine cleaned scalar fields of a raw port are texty. -/
def textyPort (p : AppState.RawPort) : Bool :=
  textyVal p.fiberType && textyVal p.connectorType && textyVal p.destination &&
    textyVal p.otdrDistance && textyVal p.otdrDistanceValue &&
    textyVal p.lastMaintained && textyVal p.branchingJoint &&
    textyVal p.cxLocation && textyVal p.notes

/-- The date parser of the C8 counterexample and witness: nothing parses. -/
def c8dp : String → Option String := fun _ => none

/-- A raw port whose `fiberType` is the one-element array `["null"]`. -/
def c8port : AppState.RawPort := { fiberType := some (.jarr [.jstr "null"]) }

/-- First normalization pass over `[c8port]`. -/
def c8once : List AppState.RawPort × Nat :=
  AppState.normalizeLoadedPorts c8dp [c8port] (.jnum 1) []

/-- Second normalization pass, fed the first pass's output and count. -/
def c8twice : List AppState.RawPort × Nat :=
  AppState.normalizeLoadedPorts c8dp c8once.1 (.jnum (Int.ofNat c8once.2)) []

/-- Lower-casing fixes every decimal digit. -/
theorem jsCharLower_digit (c : Char) (h : c.isDigit = true) : jsCharLower c = c := by
  have hcond : ¬(Char.le (Char.ofNat 65) c ∧ Char.le c (Char.ofNat 90)) := by
    intro hc
    unfold Char.isDigit at h
    rw [Bool.and_eq_true] at h
    have h9 : c ≤ Char.ofNat 57 := Char.le_def.mpr (of_decide_eq_true h.2)
    exact absurd (le_trans hc.1 h9) (by decide)
  unfold jsCharLower
  rw [if_neg]
  intro hc
  exact hcond ⟨hc.1, hc.2⟩

/-- The digit characters emitted by `natDigitsAux` really are digits. -/
theorem natDigitsAux_isDigit :
    ∀ (fuel n : Nat), ∀ c ∈ natDigitsAux fuel n, c.isDigit = true
  | 0, _, _, hc => by cases hc
  | fuel + 1, n, c, hc => by
    unfold natDigitsAux at hc
    by_cases hn : n < 10
    · rw [if_pos hn] at hc
      rw [List.mem_singleton] at hc
      subst hc
      unfold decDigit
      interval_cases n <;> decide
    · rw [if_neg hn] at hc
      rcases List.mem_append.mp hc with hc | hc
      · exact natDigitsAux_isDigit fuel (n / 10) c hc
      · rw [List.mem_singleton] at hc
        subst hc
        have hlt : n % 10 < 10 := Nat.mod_lt _ (by omega)
        unfold decDigit
        interval_cases h : n % 10 <;> decide

/-- Every character of a rendered integer is a digit or the minus sign. -/
theorem intToStr_chars (n : Int) :
    ∀ c ∈ (intToStr n).data, c.isDigit = true ∨ c = '-' := by
  intro c hc
  unfold intToStr at hc
  by_cases hneg : n < 0
  · rw [if_pos hneg] at hc
    rw [String.data_append] at hc
    rcases List.mem_append.mp hc with hc | hc
    · right
      rw [show ("-" : String).data = ['-'] from rfl, List.mem_singleton] at hc
      exact hc
    · exact Or.inl (natDigitsAux_isDigit _ _ c hc)
  · rw [if_neg hneg] at hc
    exact Or.inl (natDigitsAux_isDigit _ _ c hc)

/-- A character of a trimmed string is a character of the string. -/
theorem jsTrim_mem (s : String) (c : Char) (h : c ∈ (jsTrim s).data) : c ∈ s.data := by
  have hdata : (jsTrim s).data
      = ((s.data.dropWhile jsIsWS).reverse.dropWhile jsIsWS).reverse := rfl
  rw [hdata, List.mem_reverse] at h
  have h2 : c ∈ (s.data.dropWhile jsIsWS).reverse := (List.dropWhile_sublist _).mem h
  rw [List.mem_reverse] at h2
  exact (List.dropWhile_sublist _).mem h2

/-- `cleanText` keeps a string whose characters are all digits or minus
signs: such a string can never trim/lower-case to `"null"`. -/
theorem cleanTextS_null_free (s : String)
    (hch : ∀ c ∈ s.data, c.isDigit = true ∨ c = '-') :
    AppState.cleanTextS s = s := by
  unfold AppState.cleanTextS
  rw [if_neg]
  intro hnull
  have hn : 'n' ∈ (jsToLower (jsTrim s)).data := by
    rw [hnull]
    decide
  have hdata : (jsToLower (jsTrim s)).data = (jsTrim s).data.map jsCharLower := rfl
  rw [hdata] at hn
  rcases List.mem_map.mp hn with ⟨d, hd, hdn⟩
  rcases hch d (jsTrim_mem s d hd) with hdig | hdash
  · rw [jsCharLower_digit d hdig] at hdn
    subst hdn
    exact absurd hdig (by decide)
  · subst hdash
    exact absurd hdn (by decide)

/-- The scalar cleaner is idempotent on texty values: a second `cleanText`
pass leaves the first pass's output unchanged. -/
theorem cleanTextS_cleanTextJ (v : Option JVal) (hv : textyVal v = true) :
    AppState.cleanTextS (AppState.cleanTextJ v) = AppState.cleanTextJ v := by
  match v with
  | none => decide
  | some .jnull => decide
  | some (.jstr s) =>
    have hs : AppState.cleanTextJ (some (.jstr s)) = AppState.cleanTextS s := rfl
    rw [hs]
    unfold AppState.cleanTextS
    by_cases h : jsToLower (jsTrim s) = "null"
    · rw [if_pos h]
      decide
    · rw [if_neg h, if_neg h]
  | some (.jbool b) =>
    have hb : AppState.cleanTextJ (some (.jbool b))
        = if b then "true" else "false" := by
      show jsToString (.jbool b) = _
      simp [jsToString]
    rw [hb]
    cases b
    · decide
    · decide
  | some (.jnum n) =>
    have hn : AppState.cleanTextJ (some (.jnum n)) = intToStr n := by
      show jsToString (.jnum n) = _
      simp [jsToString]
    rw [hn]
    exact cleanTextS_null_free _ (intToStr_chars n)
  | some (.jarr _) => simp [textyVal] at hv
  | some (.jobj _) => simp [textyVal] at hv

/-- C8: normalization is NOT idempotent. The port whose `fiberType` is the
array `["null"]` stringifies to `"null"` on the first pass and is cleared
to `""` on the second: running `normalizeLoadedPorts` on its own output
(with the returned count) changes the data again. -/
theorem C8_cex : c8twice ≠ c8once := by
  intro h
  have hA : AppState.cleanTextJ (some (.jarr [.jstr "null"])) = "null" := by
    simp [AppState.cleanTextJ, jsToString, jsJoinElems, jsElemStr]
  have honce : c8once.1.map (fun q => q.fiberType)
      = [some (JVal.jstr (AppState.cleanTextJ (some (.jarr [.jstr "null"]))))] := rfl
  have htwice : c8twice.1.map (fun q => q.fiberType)
      = [some (JVal.jstr (AppState.cleanTextJ (some (.jstr
          (AppState.cleanTextJ (some (.jarr [.jstr "null"])))))))] := rfl
  have h1 : c8twice.1.map (fun q => q.fiberType) = c8once.1.map (fun q => q.fiberType) := by
    rw [h]
  rw [honce, htwice, hA] at h1
  have h2 : AppState.cleanTextJ (some (.jstr "null")) = "" := by decide
  rw [h2] at h1
  exact absurd h1 (by decide)

/-- Inversion of the date-shape test: the string starts with
`dddd-dd-dd`. -/
theorem AppState.dateShaped_inv (s : String) (hsh : AppState.dateShaped s = true) :
    ∃ a b c d e f g k rest, s.data = a :: b :: c :: d :: '-' :: e :: f :: '-' :: g :: k :: rest ∧
      (a.isDigit && b.isDigit && c.isDigit && d.isDigit && e.isDigit && f.isDigit &&
        g.isDigit && k.isDigit) = true := by
  unfold AppState.dateShaped at hsh
  split at hsh
  · next a b c d e f g k rest heq =>
    exact ⟨a, b, c, d, e, f, g, k, rest, heq, hsh⟩
  · cases hsh

/-- The date cleaner is idempotent on texty values, provided the ambient
date parser only returns already-canonical dates. -/
theorem cleanDateJ_idem (dp : String → Option String)
    (Hdp : ∀ s d, dp s = some d → AppState.cleanDateJ dp (some (.jstr d)) = d)
    (v : Option JVal) (hv : textyVal v = true) :
    AppState.cleanDateJ dp (some (.jstr (AppState.cleanDateJ dp v)))
      = AppState.cleanDateJ dp v := by
  have hunf : ∀ (w : Option JVal), AppState.cleanDateJ dp w
      = (if AppState.cleanTextJ w = "" then ""
         else if AppState.dateShaped (AppState.cleanTextJ w) = true then
           String.mk ((AppState.cleanTextJ w).data.take 10)
         else match dp (AppState.cleanTextJ w) with
           | some d => d
           | none => AppState.cleanTextJ w) := fun _ => rfl
  have hstr : ∀ s, AppState.cleanTextJ (some (.jstr s)) = AppState.cleanTextS s :=
    fun _ => rfl
  by_cases h0 : AppState.cleanTextJ v = ""
  · have e1 : AppState.cleanDateJ dp v = "" := by
      rw [hunf v, if_pos h0]
    rw [e1]
    rfl
  · by_cases h1 : AppState.dateShaped (AppState.cleanTextJ v) = true
    · rcases AppState.dateShaped_inv _ h1 with ⟨a, b, c, d, e, f, g, k, rest, hdat, hdig⟩
      simp only [Bool.and_eq_true] at hdig
      obtain ⟨⟨⟨⟨⟨⟨⟨hda, hdb⟩, hdc⟩, hdd⟩, hde⟩, hdf⟩, hdg⟩, hdk⟩ := hdig
      have e1 : AppState.cleanDateJ dp v
          = String.mk ((AppState.cleanTextJ v).data.take 10) := by
        rw [hunf v, if_neg h0, if_pos h1]
      have htake : (AppState.cleanTextJ v).data.take 10
          = [a, b, c, d, '-', e, f, '-', g, k] := by
        rw [hdat]
        rfl
      rw [e1, htake]
      rw [hunf (some (.jstr (String.mk [a, b, c, d, '-', e, f, '-', g, k])))]
      rw [hstr]
      have hch : ∀ c2 ∈ (String.mk [a, b, c, d, '-', e, f, '-', g, k]).data,
          c2.isDigit = true ∨ c2 = '-' := by
        intro c2 hc2
        have hm : c2 ∈ [a, b, c, d, '-', e, f, '-', g, k] := hc2
        simp only [List.mem_cons] at hm
        rcases hm with rfl | rfl | rfl | rfl | rfl | rfl | rfl | rfl | rfl | rfl | hm
        · exact Or.inl hda
        · exact Or.inl hdb
        · exact Or.inl hdc
        · exact Or.inl hdd
        · exact Or.inr rfl
        · exact Or.inl hde
        · exact Or.inl hdf
        · exact Or.inr rfl
        · exact Or.inl hdg
        · exact Or.inl hdk
        · exact absurd hm (List.not_mem_nil c2)
      rw [cleanTextS_null_free _ hch]
      have hne : ¬(String.mk [a, b, c, d, '-', e, f, '-', g, k] = "") := by
        intro hh
        have hdd2 := congrArg String.data hh
        simp at hdd2
      rw [if_neg hne]
      have hsh2 : AppState.dateShaped (String.mk [a, b, c, d, '-', e, f, '-', g, k]) = true := by
        show (a.isDigit && b.isDigit && c.isDigit && d.isDigit && e.isDigit && f.isDigit &&
          g.isDigit && k.isDigit) = true
        simp [hda, hdb, hdc, hdd, hde, hdf, hdg, hdk]
      rw [if_pos hsh2]
      rfl
    · rcases hdp2 : dp (AppState.cleanTextJ v) with _ | d
      · have e1 : AppState.cleanDateJ dp v = AppState.cleanTextJ v := by
          rw [hunf v, if_neg h0, if_neg h1, hdp2]
        rw [e1, hunf (some (.jstr (AppState.cleanTextJ v))), hstr,
          cleanTextS_cleanTextJ v hv, if_neg h0, if_neg h1, hdp2]
      · have e1 : AppState.cleanDateJ dp v = d := by
          rw [hunf v, if_neg h0, if_neg h1, hdp2]
        rw [e1]
        exact Hdp _ d hdp2

/-- A present pair makes `hasOwnProperty` true. -/
theorem objHas_of_mem (m : List (String × JVal)) (k : String) (v : JVal)
    (h : (k, v) ∈ m) : objHas m k = true := by
  unfold objHas
  rw [List.any_eq_true]
  exact ⟨(k, v), h, by simp⟩

/-- On a map with pairwise-distinct keys, reading a present key returns its
stored value. -/
theorem objGet_of_mem_nodup :
    ∀ (m : List (String × JVal)) (k : String) (v : JVal),
      (k, v) ∈ m → (m.map Prod.fst).Nodup → objGet m k = v
  | [], k, v, h, _ => absurd h (List.not_mem_nil _)
  | (k1, v1) :: t, k, v, h, hnd => by
    rcases List.mem_cons.mp h with heq | htail
    · injection heq with hk hv
      subst hk
      subst hv
      unfold objGet
      rw [List.find?_cons_of_pos _ (by simp)]
    · have hk1 : ¬(k1 = k) := by
        intro hh
        subst hh
        rcases List.nodup_cons.mp hnd with ⟨hnin, _⟩
        exact hnin (List.mem_map.mpr ⟨(k1, v), htail, rfl⟩)
      unfold objGet
      rw [List.find?_cons_of_neg _ (by simp [hk1])]
      have hrec := objGet_of_mem_nodup t k v htail (List.nodup_cons.mp hnd).2
      unfold objGet at hrec
      exact hrec

/-- The keys produced by the resolver loop are exactly the trimmed
non-empty labels, in order. -/
theorem cfEnum_fst (em : Option (List (String × JVal))) (la lo : Option (List JVal)) :
    ∀ (defs : List JVal) (idx : Nat),
      ((List.enumFrom idx defs).filterMap (fun q =>
          let key := jsTrim (AppState.labelText q.2)
          if key = "" then none
          else some (key, AppState.cfValue em la lo key q.1))).map Prod.fst
        = keyList defs
  | [], _ => rfl
  | label :: rest, idx => by
    have henum : List.enumFrom idx (label :: rest)
        = (idx, label) :: List.enumFrom (idx + 1) rest := rfl
    rw [henum]
    by_cases hkey : jsTrim (AppState.labelText label) = ""
    · have hkl : keyList (label :: rest) = keyList rest := by
        simp [keyList, hkey]
      rw [hkl]
      rw [@List.filterMap_cons_none (Nat × JVal) (String × JVal)
          (fun q => let key := jsTrim (AppState.labelText q.2)
                    if key = "" then none
                    else some (key, AppState.cfValue em la lo key q.1))
          (idx, label) (List.enumFrom (idx + 1) rest) (by simp [hkey])]
      exact cfEnum_fst em la lo rest (idx + 1)
    · have hkl : keyList (label :: rest)
          = jsTrim (AppState.labelText label) :: keyList rest := by
        simp [keyList, hkey]
      rw [hkl]
      have hf : (fun q : Nat × JVal =>
          let key := jsTrim (AppState.labelText q.2)
          if key = "" then none
          else some (key, AppState.cfValue em la lo key q.1)) (idx, label)
          = some (jsTrim (AppState.labelText label),
              AppState.cfValue em la lo (jsTrim (AppState.labelText label)) idx) := by
        simp [hkey]
      rw [@List.filterMap_cons_some (Nat × JVal) (String × JVal)
          (fun q => let key := jsTrim (AppState.labelText q.2)
                    if key = "" then none
                    else some (key, AppState.cfValue em la lo key q.1))
          (idx, label) (List.enumFrom (idx + 1) rest)
          (jsTrim (AppState.labelText label),
            AppState.cfValue em la lo (jsTrim (AppState.labelText label)) idx) hf,
        List.map_cons, cfEnum_fst em la lo rest (idx + 1)]

/-- Re-resolving a normalized port's custom fields against the same
definitions rebuilds the same mapping: every key is found in the map-shaped
container written by the first pass, and (with distinct labels) yields the
value stored there. -/
theorem normalizeCustomFields_idem (dp : String → Option String) (defs : List JVal)
    (i : Nat) (p : AppState.RawPort) (hnd : (keyList defs).Nodup) :
    AppState.normalizeCustomFields (AppState.normalizePort dp defs i p) defs
      = AppState.normalizeCustomFields p defs := by
  have h1 : AppState.normalizeCustomFields (AppState.normalizePort dp defs i p) defs
      = AppState.cfLoop (some (AppState.normalizeCustomFields p defs)) none none defs 0 [] :=
    rfl
  have h2 : AppState.normalizeCustomFields p defs
      = (List.enumFrom 0 defs).filterMap (fun q =>
          let key := jsTrim (AppState.labelText q.2)
          if key = "" then none
          else some (key, AppState.cfValue
            (match p.customFields with | some (.jobj m) => some m | _ => none)
            (match p.extraFieldValues with | some (.jarr xs) => some xs | _ => none)
            (match p.extraFields with | some (.jarr ys) => some ys | _ => none)
            key q.1)) := by
    unfold AppState.normalizeCustomFields
    rw [AppState.cfLoop_append _ _ _ defs 0 [] hnd (by simp), List.nil_append]
  have hcfnd : ((AppState.normalizeCustomFields p defs).map Prod.fst).Nodup := by
    rw [h2, cfEnum_fst]
    exact hnd
  rw [h1]
  rw [AppState.cfLoop_append _ _ _ defs 0 [] hnd (by simp), List.nil_append]
  conv_rhs => rw [h2]
  refine List.filterMap_congr ?_
  intro q hq
  by_cases hkey : jsTrim (AppState.labelText q.2) = ""
  · simp [hkey]
  · have hmem : (jsTrim (AppState.labelText q.2),
        AppState.cfValue
          (match p.customFields with | some (.jobj m) => some m | _ => none)
          (match p.extraFieldValues with | some (.jarr xs) => some xs | _ => none)
          (match p.extraFields with | some (.jarr ys) => some ys | _ => none)
          (jsTrim (AppState.labelText q.2)) q.1)
        ∈ AppState.normalizeCustomFields p defs := by
      rw [h2]
      refine List.mem_filterMap.mpr ⟨q, hq, ?_⟩
      simp [hkey]
    have hhas := objHas_of_mem _ _ _ hmem
    have hget := objGet_of_mem_nodup _ _ _ hmem hcfnd
    have hcv0 : AppState.cfValue (some (AppState.normalizeCustomFields p defs)) none none
        (jsTrim (AppState.labelText q.2)) q.1
        = if objHas (AppState.normalizeCustomFields p defs) (jsTrim (AppState.labelText q.2))
          then objGet (AppState.normalizeCustomFields p defs) (jsTrim (AppState.labelText q.2))
          else AppState.cfValueFlat none none q.1 := rfl
    have hcv : AppState.cfValue (some (AppState.normalizeCustomFields p defs)) none none
        (jsTrim (AppState.labelText q.2)) q.1
        = objGet (AppState.normalizeCustomFields p defs) (jsTrim (AppState.labelText q.2)) := by
      rw [hcv0, if_pos hhas]
    show (if jsTrim (AppState.labelText q.2) = "" then none
        else some (jsTrim (AppState.labelText q.2),
          AppState.cfValue (some (AppState.normalizeCustomFields p defs)) none none
            (jsTrim (AppState.labelText q.2)) q.1))
      = (if jsTrim (AppState.labelText q.2) = "" then none
        else some (jsTrim (AppState.labelText q.2),
          AppState.cfValue
            (match p.customFields with | some (.jobj m) => some m | _ => none)
            (match p.extraFieldValues with | some (.jarr xs) => some xs | _ => none)
            (match p.extraFields with | some (.jarr ys) => some ys | _ => none)
            (jsTrim (AppState.labelText q.2)) q.1))
    rw [if_neg hkey, if_neg hkey, hcv, hget]

/-- One rewritten port is a fixed point of the rewriter (at the same
position, same definitions): all second-pass cleaners reproduce the
first pass's output. -/
theorem normalizePort_idem (dp : String → Option String) (defs : List JVal) (i : Nat)
    (p : AppState.RawPort) (hp : textyPort p = true) (hnd : (keyList defs).Nodup)
    (Hdp : ∀ s d, dp s = some d → AppState.cleanDateJ dp (some (.jstr d)) = d) :
    AppState.normalizePort dp defs i (AppState.normalizePort dp defs i p)
      = AppState.normalizePort dp defs i p := by
  simp only [textyPort, Bool.and_eq_true] at hp
  obtain ⟨⟨⟨⟨⟨⟨⟨⟨hft, hct⟩, hde⟩, hod⟩, hov⟩, hlm⟩, hbj⟩, hcx⟩, hnt⟩ := hp
  have e1 : AppState.normalizePort dp defs i (AppState.normalizePort dp defs i p)
      = { extraFieldValues := none
          extraFields := none
          customFields := some (.jobj
            (AppState.normalizeCustomFields (AppState.normalizePort dp defs i p) defs))
          id := some (.jnum (Int.ofNat (i + 1)))
          label := some (.jstr ("PORT-" ++ padStart3 (intToStr (Int.ofNat (i + 1)))))
          status := p.status
          fiberType := some (.jstr (AppState.cleanTextS (AppState.cleanTextJ p.fiberType)))
          connectorType := some (.jstr
            (AppState.cleanTextS (AppState.cleanTextJ p.connectorType)))
          destination := some (.jstr
            (AppState.cleanTextS (AppState.cleanTextJ p.destination)))
          otdrDistance := some (.jstr
            (AppState.cleanTextS (AppState.cleanTextJ p.otdrDistance)))
          otdrDistanceValue := some (.jstr
            (AppState.cleanTextS (AppState.cleanTextJ p.otdrDistanceValue)))
          lastMaintained := some (.jstr (AppState.cleanDateJ dp
            (some (.jstr (AppState.cleanDateJ dp p.lastMaintained)))))
          branchingJoint := some (.jstr
            (AppState.cleanTextS (AppState.cleanTextJ p.branchingJoint)))
          cxLocation := some (.jstr
            (AppState.cleanTextS (AppState.cleanTextJ p.cxLocation)))
          notes := some (.jstr (AppState.cleanTextS (AppState.cleanTextJ p.notes)))
          extraProps := p.extraProps } := rfl
  rw [e1]
  rw [normalizeCustomFields_idem dp defs i p hnd]
  rw [cleanTextS_cleanTextJ _ hft, cleanTextS_cleanTextJ _ hct, cleanTextS_cleanTextJ _ hde,
    cleanTextS_cleanTextJ _ hod, cleanTextS_cleanTextJ _ hov, cleanDateJ_idem dp Hdp _ hlm,
    cleanTextS_cleanTextJ _ hbj, cleanTextS_cleanTextJ _ hcx, cleanTextS_cleanTextJ _ hnt]
  rfl

set_option maxHeartbeats 800000 in
/-- C8 amended: normalization is idempotent only on composite-free data.
For every port list whose nine cleaned scalar fields are all texty (absent,
null, boolean, number or string — no arrays or objects), with a
definitions list whose trimmed non-empty labels are distinct and a date
parser that returns already-canonical dates, feeding
`normalizeLoadedPorts`'s output (ports and count) back into it reproduces
that output exactly. Without the texty restriction idempotence fails
(`C8_cex`). -/
theorem C8_idempotent (dp : String → Option String) (ports : List AppState.RawPort)
    (dc : JVal) (defs : List JVal)
    (Htexty : ∀ p ∈ ports, textyPort p = true)
    (hnd : (keyList defs).Nodup)
    (Hdp : ∀ s d, dp s = some d → AppState.cleanDateJ dp (some (.jstr d)) = d) :
    AppState.normalizeLoadedPorts dp (AppState.normalizeLoadedPorts dp ports dc defs).1
        (.jnum (Int.ofNat (AppState.normalizeLoadedPorts dp ports dc defs).2)) defs
      = AppState.normalizeLoadedPorts dp ports dc defs := by
  have hsl : ∀ p ∈ (match jsToNumber dc with
      | none => ports
      | some n => jsSliceTo ports n), textyPort p = true := by
    intro p hp
    apply Htexty
    rcases hdc : jsToNumber dc with _ | n
    · rw [hdc] at hp
      exact hp
    · rw [hdc] at hp
      have hp2 : p ∈ jsSliceTo ports n := hp
      unfold jsSliceTo at hp2
      by_cases h0 : (0 : Int) ≤ n
      · rw [if_pos h0] at hp2
        exact List.mem_of_mem_take hp2
      · rw [if_neg h0] at hp2
        exact List.mem_of_mem_take hp2
  have key : ∀ (l : List AppState.RawPort), (∀ p ∈ l, textyPort p = true) →
      (l.mapIdx (fun j q => AppState.normalizePort dp defs j q)).mapIdx
          (fun j q => AppState.normalizePort dp defs j q)
        = l.mapIdx (fun j q => AppState.normalizePort dp defs j q) := by
    intro l hl
    refine List.ext_getElem (by simp) ?_
    intro j h1 h2
    have hj : j < l.length := by simpa using h1
    rw [List.getElem_mapIdx, List.getElem_mapIdx]
    exact normalizePort_idem dp defs j (l.get ⟨j, hj⟩)
      (hl _ (List.get_mem l j hj)) hnd Hdp
  have hout2 : (AppState.normalizeLoadedPorts dp ports dc defs).1
      = (match jsToNumber dc with
          | none => ports
          | some n => jsSliceTo ports n).mapIdx
        (fun j q => AppState.normalizePort dp defs j q) := rfl
  have hn : (AppState.normalizeLoadedPorts dp ports dc defs).2
      = (AppState.normalizeLoadedPorts dp ports dc defs).1.length := rfl
  have hunfN : ∀ (ps : List AppState.RawPort) (m : Int),
      AppState.normalizeLoadedPorts dp ps (.jnum m) defs
        = ((jsSliceTo ps m).mapIdx (fun j q => AppState.normalizePort dp defs j q),
           ((jsSliceTo ps m).mapIdx (fun j q => AppState.normalizePort dp defs j q)).length) :=
    fun _ _ => rfl
  rw [hunfN, hn]
  have hslice : jsSliceTo (AppState.normalizeLoadedPorts dp ports dc defs).1
      (Int.ofNat (AppState.normalizeLoadedPorts dp ports dc defs).1.length)
      = (AppState.normalizeLoadedPorts dp ports dc defs).1 := by
    unfold jsSliceTo
    have h0 : (0 : Int)
        ≤ Int.ofNat (AppState.normalizeLoadedPorts dp ports dc defs).1.length := by
      exact Int.ofNat_nonneg _
    rw [if_pos h0]
    rw [show (Int.ofNat (AppState.normalizeLoadedPorts dp ports dc defs).1.length).toNat
        = (AppState.normalizeLoadedPorts dp ports dc defs).1.length from rfl]
    exact List.take_length _
  rw [hslice]
  have hmain : (AppState.normalizeLoadedPorts dp ports dc defs).1.mapIdx
      (fun j q => AppState.normalizePort dp defs j q)
      = (AppState.normalizeLoadedPorts dp ports dc defs).1 := by
    rw [hout2]
    exact key _ hsl
  rw [hmain]
  rfl

/-- Witness for C8 amended: a singleton texty port under an empty schema
and a never-matching date parser is already a fixed point. -/
theorem C8_idempotent_witness :
    AppState.normalizeLoadedPorts c8dp
        (AppState.normalizeLoadedPorts c8dp
          [{ fiberType := some (.jstr "OS2") }] (.jnum 1) []).1
        (.jnum (Int.ofNat (AppState.normalizeLoadedPorts c8dp
          [{ fiberType := some (.jstr "OS2") }] (.jnum 1) []).2)) []
      = AppState.normalizeLoadedPorts c8dp [{ fiberType := some (.jstr "OS2") }] (.jnum 1) [] :=
  C8_idempotent c8dp [{ fiberType := some (.jstr "OS2") }] (.jnum 1) []
    (by intro p hp; rw [List.mem_singleton] at hp; subst hp; decide)
    (by exact List.nodup_nil)
    (by intro s d h; cases h)
